import Mathlib

/-!
Verification development for the scene-it storyboarding engine.

The Rust sources are shallowly embedded:
* `Id<Scene>` (an opaque UUID compared by value only) is embedded as `Nat`.
* `HashMap<Id<Scene>, HashSet<Id<Scene>>>` is embedded as an association list
  `List (SceneId × Finset SceneId)`; a Rust `HashMap` never holds two entries
  for the same key, which the predicate `SceneGraph.WF` captures where a proof
  needs it.
* `&mut self` methods returning `Result<T, E>` become functions returning the
  updated state paired with `Except E T` (the state is also returned on the
  error paths, exactly as the Rust leaves `self` behind).
* `UtcDateTime::now()` is embedded by threading an explicit `now : Nat`
  parameter into every operation that can touch metadata.
-/

/-- Embedding of `Id<Scene>`: an opaque identifier compared by value. -/
abbrev SceneId := Nat

/-- Embedding of the rows of `SceneGraph.edges`
(`HashMap<Id<Scene>, HashSet<Id<Scene>>>` in `scene_graph.rs`). -/
abbrev Edges := List (SceneId × Finset SceneId)

/-- Embedding of `StoryboardError` from `storyboard.rs`. -/
inductive StoryboardError where
  | UnknownScene (id : SceneId)
  | InvalidMove (scene from_ dest : SceneId)
  | CycleDetected (scene dest : SceneId)
  | SceneNotInGraph (id : SceneId)
deriving DecidableEq, Repr

/-- Embedding of `StoryboardUpdate` from `storyboard.rs`. -/
inductive StoryboardUpdate where
  | Move (scene from_ dest : SceneId)
  | SceneAdded (id : SceneId)
  | SceneSetAsRoot (id : SceneId)
  | LinkedScenes (from_ dest : SceneId)
  | SceneDeleted (id : SceneId)
  | EdgeDeleted (from_ dest : SceneId)
deriving DecidableEq, Repr

deriving instance DecidableEq for Except

/-- Association-list lookup: embedding of `HashMap::get` on `edges`. -/
def lookupSucc : Edges → SceneId → Option (Finset SceneId)
  | [], _ => none
  | e :: rest, a => if e.1 = a then some e.2 else lookupSucc rest a

/-- Embedding of `HashMap::contains_key` on `edges`. -/
def containsKey (l : Edges) (a : SceneId) : Bool :=
  (lookupSucc l a).isSome

/-- Embedding of `edges.entry(id).or_default()`: insert a key with an empty
successor set when absent, leave the map alone when present. -/
def addKey (l : Edges) (a : SceneId) : Edges :=
  if containsKey l a then l else l ++ [(a, ∅)]

/-- Embedding of an in-place mutation `*edges.get_mut(a) = s`: replace the
successor set stored at key `a` (no change when `a` is absent). -/
def setSucc (l : Edges) (a : SceneId) (s : Finset SceneId) : Edges :=
  l.map fun e => if e.1 = a then (a, s) else e

/-- Embedding of the body of `SceneGraph::delete_scene`'s mutation: remove the
entry keyed `a` (`edges.remove`) and erase `a` from every remaining successor
set (the `for edges in self.edges.values_mut()` loop). -/
def purgeKey (l : Edges) (a : SceneId) : Edges :=
  (l.filter fun e => e.1 != a).map fun e => (e.1, e.2.erase a)

/-- The set of keys of the edges map (`edges.keys()`). -/
def keysFinset (l : Edges) : Finset SceneId :=
  (l.map Prod.fst).toFinset

/-- A concrete enumeration of a finite set of identifiers, standing in for
Rust's `HashSet` iteration (whose order is unspecified).  Chosen so that it
evaluates by kernel reduction. -/
def elems (s : Finset SceneId) : List SceneId :=
  (List.range (s.sup id + 1)).filter fun x => decide (x ∈ s)

/-- Union of every successor set stored in the map. -/
def allSuccs : Edges → Finset SceneId
  | [] => ∅
  | e :: rest => e.2 ∪ allSuccs rest

/-- Embedding of `SceneGraph` from `scene_graph.rs`. -/
structure SceneGraph where
  edges : Edges
  roots : Finset SceneId
deriving DecidableEq

namespace SceneGraph

/-- A Rust `HashMap` holds at most one entry per key; an embedded graph is
well-formed when its association list does too. -/
def WF (g : SceneGraph) : Prop :=
  (g.edges.map Prod.fst).Nodup

instance (g : SceneGraph) : Decidable g.WF :=
  inferInstanceAs (Decidable (g.edges.map Prod.fst).Nodup)

/-- Embedding of `SceneGraph::new`. -/
def new : SceneGraph := ⟨[], ∅⟩

/-- The successor set of `a` (`edges.get(a)` defaulted to the empty set, the
way every read in the source treats an absent key). -/
def succs (g : SceneGraph) (a : SceneId) : Finset SceneId :=
  (lookupSucc g.edges a).getD ∅

/-- Embedding of `SceneGraph::add_scene`. -/
def add_scene (g : SceneGraph) (scene_id : SceneId) : SceneGraph × StoryboardUpdate :=
  (⟨addKey g.edges scene_id, g.roots⟩, .SceneAdded scene_id)

/-- Embedding of `SceneGraph::add_root`. -/
def add_root (g : SceneGraph) (scene_id : SceneId) : SceneGraph × StoryboardUpdate :=
  let g1 := (g.add_scene scene_id).1
  (⟨g1.edges, insert scene_id g1.roots⟩, .SceneSetAsRoot scene_id)

/-- Embedding of `SceneGraph::add_edge`. -/
def add_edge (g : SceneGraph) (from_ dest : SceneId) : SceneGraph × StoryboardUpdate :=
  let g1 := (g.add_scene from_).1
  let g2 := (g1.add_scene dest).1
  let g3 : SceneGraph :=
    match lookupSucc g2.edges from_ with
    | some s => ⟨setSucc g2.edges from_ (insert dest s), g2.roots⟩
    | none => g2
  (g3, .LinkedScenes from_ dest)

/-- All identifiers mentioned anywhere in the edges map. -/
def nodeSet (g : SceneGraph) : Finset SceneId :=
  keysFinset g.edges ∪ allSuccs g.edges

/-- One-step transition relation of the graph: `b` is a direct successor of
`a`. -/
def Adj (g : SceneGraph) (a b : SceneId) : Prop :=
  b ∈ g.succs a

/-- `b` is reachable from `a` along directed edges (zero or more steps). -/
def Reaches (g : SceneGraph) (a b : SceneId) : Prop :=
  Relation.ReflTransGen g.Adj a b

/-- Embedding of the `while let Some(node) = stack.pop()` loop of
`SceneGraph::is_descendant`: explicit stack, visited set, short-circuit on
`target`.  The loop always terminates because `visited` only grows and is
drawn from a finite universe; the embedding makes that explicit with a fuel
argument that the caller sizes generously (`descFuel`). -/
def dfs (g : SceneGraph) (target : SceneId) :
    Nat → List SceneId → Finset SceneId → Bool
  | 0, _, _ => false
  | _ + 1, [], _ => false
  | fuel + 1, node :: stack, visited =>
    if node = target then true
    else if node ∈ visited then dfs g target fuel stack visited
    else dfs g target fuel (elems (g.succs node) ++ stack) (insert node visited)

/-- Fuel that provably suffices for `dfs` to run the source loop to
completion. -/
def descFuel (g : SceneGraph) (start : SceneId) : Nat :=
  1 + (insert start g.nodeSet).card * ((insert start g.nodeSet).card + 1)

/-- Embedding of `SceneGraph::is_descendant`. -/
def is_descendant (g : SceneGraph) (start target : SceneId) : Bool :=
  dfs g target (descFuel g start) [start] ∅

/-- Embedding of `SceneGraph::move_scene`. -/
def move_scene (g : SceneGraph) (scene from_ dest : SceneId) :
    SceneGraph × Except StoryboardError StoryboardUpdate :=
  if containsKey g.edges scene = false then (g, .error (.SceneNotInGraph scene))
  else if containsKey g.edges from_ = false then (g, .error (.SceneNotInGraph from_))
  else if containsKey g.edges dest = false then (g, .error (.SceneNotInGraph dest))
  else if from_ = dest then (g, .ok (.Move scene from_ dest))
  else if scene ∉ g.succs from_ then (g, .error (.InvalidMove scene from_ dest))
  else
    let g1 : SceneGraph := ⟨setSucc g.edges from_ ((g.succs from_).erase scene), g.roots⟩
    if g1.is_descendant dest scene then
      (⟨setSucc g1.edges from_ (insert scene ((g.succs from_).erase scene)), g1.roots⟩,
        .error (.CycleDetected scene dest))
    else
      (⟨setSucc g1.edges dest (insert scene (g1.succs dest)), g1.roots⟩,
        .ok (.Move scene from_ dest))

/-- Embedding of `SceneGraph::delete_scene`. -/
def delete_scene (g : SceneGraph) (scene_id : SceneId) :
    SceneGraph × Except StoryboardError StoryboardUpdate :=
  if containsKey g.edges scene_id = false then (g, .error (.SceneNotInGraph scene_id))
  else
    (⟨purgeKey g.edges scene_id, g.roots.erase scene_id⟩, .ok (.SceneDeleted scene_id))

/-- Embedding of `SceneGraph::delete_edge`. -/
def delete_edge (g : SceneGraph) (from_ dest : SceneId) :
    SceneGraph × Except StoryboardError StoryboardUpdate :=
  match lookupSucc g.edges from_ with
  | none => (g, .error (.SceneNotInGraph from_))
  | some s =>
    (⟨setSucc g.edges from_ (s.erase dest), g.roots⟩, .ok (.EdgeDeleted from_ dest))

/-- Embedding of `SceneGraph::next_scenes` (the set underlying the returned
iterator). -/
def next_scenes (g : SceneGraph) (scene_id : SceneId) : Finset SceneId :=
  g.succs scene_id

/-- Embedding of the multi-source traversal loop of
`SceneGraph::unreachable_scenes`: identical stepping to `dfs` but with no
target, returning the visited set. -/
def visitAll (g : SceneGraph) :
    Nat → List SceneId → Finset SceneId → Finset SceneId
  | 0, _, visited => visited
  | _ + 1, [], visited => visited
  | fuel + 1, node :: stack, visited =>
    if node ∈ visited then visitAll g fuel stack visited
    else visitAll g fuel (elems (g.succs node) ++ stack) (insert node visited)

/-- Fuel that provably suffices for `visitAll` seeded at the roots. -/
def travFuel (g : SceneGraph) : Nat :=
  g.roots.card + 1 + (g.roots ∪ g.nodeSet).card * ((g.roots ∪ g.nodeSet).card + 1)

/-- Embedding of `SceneGraph::unreachable_scenes`. -/
def unreachable_scenes (g : SceneGraph) : Finset SceneId :=
  let visited := visitAll g g.travFuel (elems g.roots) ∅
  (keysFinset g.edges).filter fun id => id ∉ visited

end SceneGraph

/-- Embedding of `Metadata` from `metadata.rs` (timestamps as abstract `Nat`
instants). -/
structure Metadata where
  created_at : Nat
  updated_at : Nat
  version : Nat
  revision_notes : List String
  tags : List String
  locked : Bool
deriving DecidableEq

/-- Embedding of `Metadata::new`, with the ambient clock made explicit. -/
def Metadata.new (now : Nat) : Metadata :=
  ⟨now, now, 1, [], [], false⟩

/-- Embedding of `HasMetadata::touch`: set the updated timestamp to `now` and
increment the version counter. -/
def Metadata.touch (m : Metadata) (now : Nat) : Metadata :=
  { m with updated_at := now, version := m.version + 1 }

/-- Embedding of `Scene` from `scene.rs`.  The content payload (active
variant, variant bank, headings, dialogue elements) is opaque to every claim
verified here, so only the identifier and the metadata the storyboard touches
are carried. -/
structure Scene where
  id : SceneId
  metadata : Metadata
deriving DecidableEq

/-- `Scene`'s `HasMetadata::touch` instance. -/
def Scene.touch (s : Scene) (now : Nat) : Scene :=
  { s with metadata := s.metadata.touch now }

/-- Embedding of `Storyboard.scene_bank` (`HashMap<Id<Scene>, Scene>`). -/
abbrev SceneBank := List (SceneId × Scene)

/-- Association-list lookup on the scene bank (`scene_bank.get`). -/
def bankLookup : SceneBank → SceneId → Option Scene
  | [], _ => none
  | e :: rest, a => if e.1 = a then some e.2 else bankLookup rest a

/-- Embedding of `scene_bank.contains_key`. -/
def bankContains (b : SceneBank) (a : SceneId) : Bool :=
  (bankLookup b a).isSome

/-- Embedding of `scene_bank.insert` (replace when present, append when
absent). -/
def bankInsert (b : SceneBank) (a : SceneId) (s : Scene) : SceneBank :=
  if bankContains b a then b.map fun e => if e.1 = a then (a, s) else e
  else b ++ [(a, s)]

/-- Embedding of `scene_bank.remove`. -/
def bankRemove (b : SceneBank) (a : SceneId) : SceneBank :=
  b.filter fun e => e.1 != a

/-- Embedding of an in-place `scene_bank.get_mut(a)` mutation by `f` (no
change when `a` is absent). -/
def bankUpdate (b : SceneBank) (a : SceneId) (f : Scene → Scene) : SceneBank :=
  b.map fun e => if e.1 = a then (a, f e.2) else e

/-- Embedding of `StoryTemplate` from `storyboard.rs`. -/
inductive StoryTemplate where
  | Teleplay
  | Screenplay
  | HalfHourSitcom
  | Novel
deriving DecidableEq

/-- Embedding of `Storyboard` from `storyboard.rs`.  `title` stands for the
validated `Title` wrapper; `authors` and `characters` are plain id-keyed maps
whose entries no claim inspects, kept as key lists so their operations stay
representable. -/
structure Storyboard where
  title : Option String
  authors : List Nat
  scene_bank : SceneBank
  characters : List Nat
  template : Option StoryTemplate
  scene_graph : SceneGraph
  metadata : Metadata
deriving DecidableEq

namespace Storyboard

/-- Embedding of `Storyboard::default`, with the ambient clock explicit. -/
def default (now : Nat) : Storyboard :=
  ⟨none, [], [], [], none, SceneGraph.new, Metadata.new now⟩

/-- Embedding of `Storyboard::update_metadata`: touch the scene's metadata if
the scene bank holds it, otherwise do nothing. -/
def update_metadata (sb : Storyboard) (scene : SceneId) (now : Nat) : Storyboard :=
  { sb with scene_bank := bankUpdate sb.scene_bank scene (fun s => s.touch now) }

/-- Embedding of `Storyboard::apply_update`. -/
def apply_update (sb : Storyboard) (u : StoryboardUpdate) (now : Nat) : Storyboard :=
  match u with
  | .Move scene from_ dest =>
    ((sb.update_metadata scene now).update_metadata from_ now).update_metadata dest now
  | .SceneAdded scene => sb.update_metadata scene now
  | .SceneSetAsRoot scene => sb.update_metadata scene now
  | .SceneDeleted scene => sb.update_metadata scene now
  | .LinkedScenes from_ dest => (sb.update_metadata from_ now).update_metadata dest now
  | .EdgeDeleted from_ dest => (sb.update_metadata from_ now).update_metadata dest now

/-- Embedding of `Storyboard::add_scene`: register in the graph and store the
content; the emitted graph notification is dropped, exactly as in the source
(`self.scene_graph.add_scene(&scene.id());` discards its return value). -/
def add_scene (sb : Storyboard) (scene : Scene) : Storyboard :=
  { sb with
    scene_graph := (sb.scene_graph.add_scene scene.id).1,
    scene_bank := bankInsert sb.scene_bank scene.id scene }

/-- Embedding of `Storyboard::move_scene`: delegate to the graph with no
scene-bank validation, then on success apply the returned notification. -/
def move_scene (sb : Storyboard) (scene from_ dest : SceneId) (now : Nat) :
    Storyboard × Except StoryboardError Unit :=
  match sb.scene_graph.move_scene scene from_ dest with
  | (g, .error e) => ({ sb with scene_graph := g }, .error e)
  | (g, .ok u) => (({ sb with scene_graph := g }).apply_update u now, .ok ())

/-- Embedding of `Storyboard::delete_scene`: a no-op success when the bank
lacks the scene; otherwise remove from the bank first, then delete the stored
scene's own id from the graph and apply the notification. -/
def delete_scene (sb : Storyboard) (scene : SceneId) (now : Nat) :
    Storyboard × Except StoryboardError Unit :=
  match bankLookup sb.scene_bank scene with
  | none => (sb, .ok ())
  | some sc =>
    let sb1 := { sb with scene_bank := bankRemove sb.scene_bank scene }
    match sb1.scene_graph.delete_scene sc.id with
    | (g, .error e) => ({ sb1 with scene_graph := g }, .error e)
    | (g, .ok u) => (({ sb1 with scene_graph := g }).apply_update u now, .ok ())

/-- Embedding of `Storyboard::set_scene_as_root`: delegate to the graph with
no scene-bank validation; the emitted notification is dropped, exactly as in
the source (`self.scene_graph.add_root(scene_id);` discards its return
value), so no metadata is touched. -/
def set_scene_as_root (sb : Storyboard) (scene_id : SceneId) : Storyboard :=
  { sb with scene_graph := (sb.scene_graph.add_root scene_id).1 }

/-- Embedding of `Storyboard::link_scenes`: validate both endpoints against
the scene bank (`from` first), then delegate and apply the notification. -/
def link_scenes (sb : Storyboard) (from_ to_ : SceneId) (now : Nat) :
    Storyboard × Except StoryboardError Unit :=
  if bankContains sb.scene_bank from_ = false then (sb, .error (.UnknownScene from_))
  else if bankContains sb.scene_bank to_ = false then (sb, .error (.UnknownScene to_))
  else
    let r := sb.scene_graph.add_edge from_ to_
    (({ sb with scene_graph := r.1 }).apply_update r.2 now, .ok ())

/-- Embedding of `Storyboard::unlink_scenes`: validate both endpoints against
the scene bank (`from` first), then delegate to `delete_edge` and on success
apply the notification. -/
def unlink_scenes (sb : Storyboard) (from_ to_ : SceneId) (now : Nat) :
    Storyboard × Except StoryboardError Unit :=
  if bankContains sb.scene_bank from_ = false then (sb, .error (.UnknownScene from_))
  else if bankContains sb.scene_bank to_ = false then (sb, .error (.UnknownScene to_))
  else
    match sb.scene_graph.delete_edge from_ to_ with
    | (g, .error e) => ({ sb with scene_graph := g }, .error e)
    | (g, .ok u) => (({ sb with scene_graph := g }).apply_update u now, .ok ())

/-- Embedding of `Storyboard::standalone_scenes`. -/
def standalone_scenes (sb : Storyboard) : Finset SceneId :=
  sb.scene_graph.unreachable_scenes

/-- Embedding of `Storyboard::update_title`. -/
def update_title (sb : Storyboard) (t : String) : Storyboard :=
  { sb with title := some t }

/-- Embedding of `Storyboard::clear_title`. -/
def clear_title (sb : Storyboard) : Storyboard :=
  { sb with title := none }

/-- Embedding of `Storyboard::update_template`. -/
def update_template (sb : Storyboard) (t : StoryTemplate) : Storyboard :=
  { sb with template := some t }

/-- Embedding of `Storyboard::clear_template`. -/
def clear_template (sb : Storyboard) : Storyboard :=
  { sb with template := none }

/-- Embedding of `Storyboard::add_author` (only the key set matters to any
claim). -/
def add_author (sb : Storyboard) (author : Nat) : Storyboard :=
  { sb with authors := author :: sb.authors }

/-- Embedding of `Storyboard::remove_author`. -/
def remove_author (sb : Storyboard) (author : Nat) : Storyboard :=
  { sb with authors := sb.authors.filter (· != author) }

/-- Embedding of `Storyboard::add_character`. -/
def add_character (sb : Storyboard) (c : Nat) : Storyboard :=
  { sb with characters := c :: sb.characters }

end Storyboard

/-! Lemmas about the association-list primitives. -/

theorem containsKey_iff (a : SceneId) :
    ∀ l : Edges, containsKey l a = true ↔ a ∈ l.map Prod.fst := by
  intro l
  induction l with
  | nil => simp [containsKey, lookupSucc]
  | cons e rest ih =>
    by_cases he : e.1 = a
    · simp [containsKey, lookupSucc, he]
    · simp only [containsKey] at ih
      simp [containsKey, lookupSucc, he, ih, Ne.symm he]

theorem containsKey_false_iff (a : SceneId) (l : Edges) :
    containsKey l a = false ↔ a ∉ l.map Prod.fst := by
  rw [← containsKey_iff]
  cases h : containsKey l a <;> simp [h]

theorem setSucc_of_not_contains (a : SceneId) (s : Finset SceneId) :
    ∀ l : Edges, containsKey l a = false → setSucc l a s = l := by
  intro l
  induction l with
  | nil => intro _; rfl
  | cons e rest ih =>
    intro h
    have hmem := (containsKey_false_iff a (e :: rest)).mp h
    simp only [List.map_cons, List.mem_cons, not_or] at hmem
    have he : e.1 ≠ a := fun hea => hmem.1 hea.symm
    have hrest : containsKey rest a = false :=
      (containsKey_false_iff a rest).mpr hmem.2
    simp only [setSucc, List.map_cons, if_neg he]
    rw [show List.map _ rest = setSucc rest a s from rfl, ih hrest]

theorem lookupSucc_setSucc_self (a : SceneId) (s : Finset SceneId) :
    ∀ l : Edges, containsKey l a = true → lookupSucc (setSucc l a s) a = some s := by
  intro l
  induction l with
  | nil => simp [containsKey, lookupSucc]
  | cons e rest ih =>
    intro h
    by_cases he : e.1 = a
    · simp [setSucc, lookupSucc, he]
    · simp only [setSucc, List.map_cons, if_neg he, lookupSucc, he, if_false]
      apply ih
      simpa [containsKey, lookupSucc, he] using h

theorem lookupSucc_setSucc_ne (a b : SceneId) (s : Finset SceneId) (hne : b ≠ a) :
    ∀ l : Edges, lookupSucc (setSucc l a s) b = lookupSucc l b := by
  intro l
  induction l with
  | nil => rfl
  | cons e rest ih =>
    by_cases he : e.1 = a
    · have heb : e.1 ≠ b := fun h => hne (h ▸ he ▸ rfl)
      simp only [setSucc, List.map_cons, if_pos he, lookupSucc,
        if_neg (Ne.symm hne), if_neg heb]
      exact ih
    · simp only [setSucc, List.map_cons, if_neg he, lookupSucc]
      by_cases hb : e.1 = b
      · simp [hb]
      · simp only [if_neg hb]
        exact ih

theorem containsKey_setSucc (a b : SceneId) (s : Finset SceneId) (l : Edges) :
    containsKey (setSucc l a s) b = containsKey l b := by
  by_cases hb : b = a
  · subst hb
    cases h : containsKey l b
    · rw [setSucc_of_not_contains b s l h, h]
    · rw [containsKey, lookupSucc_setSucc_self b s l h]
      rfl
  · rw [containsKey, lookupSucc_setSucc_ne a b s hb l, containsKey]

theorem setSucc_setSucc (a : SceneId) (s₁ s₂ : Finset SceneId) :
    ∀ l : Edges, setSucc (setSucc l a s₁) a s₂ = setSucc l a s₂ := by
  intro l
  induction l with
  | nil => rfl
  | cons e rest ih =>
    by_cases he : e.1 = a
    · simpa [setSucc, he] using ih
    · simpa [setSucc, he] using ih

theorem setSucc_lookup_self (a : SceneId) :
    ∀ l : Edges, (l.map Prod.fst).Nodup → ∀ s, lookupSucc l a = some s →
      setSucc l a s = l := by
  intro l
  induction l with
  | nil => intro _ s h; cases h
  | cons e rest ih =>
    intro hnd s hs
    simp only [List.map_cons, List.nodup_cons] at hnd
    by_cases he : e.1 = a
    · simp only [lookupSucc, if_pos he] at hs
      have hs2 : e.2 = s := Option.some.inj hs
      have hrest : containsKey rest a = false := by
        rw [containsKey_false_iff]
        exact fun hmem => hnd.1 (he ▸ hmem)
      simp only [setSucc, List.map_cons, if_pos he]
      rw [show List.map _ rest = setSucc rest a s from rfl,
        setSucc_of_not_contains a s rest hrest, ← he, ← hs2, Prod.mk.eta]
    · simp only [lookupSucc, if_neg he] at hs
      simp only [setSucc, List.map_cons, if_neg he]
      rw [show List.map _ rest = setSucc rest a s from rfl, ih hnd.2 s hs]

theorem lookupSucc_none_of_false (a : SceneId) (l : Edges)
    (h : containsKey l a = false) : lookupSucc l a = none := by
  unfold containsKey at h
  cases hl : lookupSucc l a
  · rfl
  · rw [hl] at h; cases h

theorem lookupSucc_append (a : SceneId) (l₁ l₂ : Edges) :
    lookupSucc (l₁ ++ l₂) a = (lookupSucc l₁ a).or (lookupSucc l₂ a) := by
  induction l₁ with
  | nil => simp [lookupSucc]
  | cons e rest ih =>
    by_cases he : e.1 = a
    · simp [lookupSucc, he]
    · simp [lookupSucc, he, ih]

theorem lookupSucc_addKey_self (a : SceneId) (l : Edges) :
    lookupSucc (addKey l a) a = some ((lookupSucc l a).getD ∅) := by
  unfold addKey
  cases h : containsKey l a
  · rw [if_neg (by simp [h]), lookupSucc_append, lookupSucc_none_of_false a l h]
    simp [lookupSucc]
  · rw [if_pos (by simp [h])]
    unfold containsKey at h
    cases hl : lookupSucc l a
    · rw [hl] at h; cases h
    · rfl

theorem lookupSucc_addKey_ne (a b : SceneId) (hne : b ≠ a) (l : Edges) :
    lookupSucc (addKey l a) b = lookupSucc l b := by
  unfold addKey
  cases h : containsKey l a
  · rw [if_neg (by simp [h]), lookupSucc_append]
    cases hl : lookupSucc l b
    · simp [lookupSucc, Ne.symm hne]
    · rfl
  · rw [if_pos (by simp [h])]

theorem containsKey_addKey_self (a : SceneId) (l : Edges) :
    containsKey (addKey l a) a = true := by
  unfold containsKey
  rw [lookupSucc_addKey_self]
  rfl

theorem containsKey_addKey_of (a b : SceneId) (l : Edges)
    (h : containsKey l b = true) : containsKey (addKey l a) b = true := by
  by_cases hba : b = a
  · subst hba; exact containsKey_addKey_self b l
  · unfold containsKey
    rw [lookupSucc_addKey_ne a b hba]
    exact h

theorem lookupSucc_purgeKey (a b : SceneId) :
    ∀ l : Edges, lookupSucc (purgeKey l a) b =
      if b = a then none else (lookupSucc l b).map (fun s => s.erase a) := by
  intro l
  induction l with
  | nil => by_cases hb : b = a <;> simp [purgeKey, lookupSucc, hb]
  | cons e rest ih =>
    by_cases hea : e.1 = a
    · have : purgeKey (e :: rest) a = purgeKey rest a := by
        simp [purgeKey, hea]
      rw [this, ih]
      by_cases hb : b = a
      · simp [hb]
      · have heb : e.1 ≠ b := fun h => hb (h ▸ hea ▸ rfl)
        simp [lookupSucc, heb, hb]
    · have hstep : purgeKey (e :: rest) a = (e.1, e.2.erase a) :: purgeKey rest a := by
        simp [purgeKey, hea]
      rw [hstep]
      by_cases heb : e.1 = b
      · have hb : b ≠ a := fun h => hea (heb.trans h)
        simp [lookupSucc, heb, hb]
      · simp only [lookupSucc, if_neg heb]
        rw [ih]

theorem mem_keysFinset (a : SceneId) (l : Edges) :
    a ∈ keysFinset l ↔ containsKey l a = true := by
  rw [keysFinset, List.mem_toFinset, containsKey_iff]

theorem subset_allSuccs_of_lookup (a : SceneId) :
    ∀ l : Edges, ∀ v, lookupSucc l a = some v → v ⊆ allSuccs l := by
  intro l
  induction l with
  | nil => intro v h; cases h
  | cons e rest ih =>
    intro v h
    by_cases he : e.1 = a
    · rw [lookupSucc, if_pos he] at h
      rw [← Option.some.inj h]
      exact fun x hx => Finset.mem_union_left _ hx
    · rw [lookupSucc, if_neg he] at h
      exact fun x hx => Finset.mem_union_right _ (ih v h hx)

theorem mem_elems (s : Finset SceneId) (x : SceneId) :
    x ∈ elems s ↔ x ∈ s := by
  unfold elems
  rw [List.mem_filter]
  simp only [List.mem_range, decide_eq_true_eq]
  constructor
  · exact fun h => h.2
  · intro h
    refine ⟨?_, h⟩
    have : id x ≤ s.sup id := Finset.le_sup h
    simpa using Nat.lt_succ_of_le this

theorem elems_nodup (s : Finset SceneId) : (elems s).Nodup :=
  (List.nodup_range _).filter _

theorem length_elems (s : Finset SceneId) : (elems s).length = s.card := by
  rw [← List.toFinset_card_of_nodup (elems_nodup s)]
  congr 1
  ext x
  rw [List.mem_toFinset, mem_elems]

namespace SceneGraph

theorem succs_subset_nodeSet (g : SceneGraph) (x : SceneId) :
    g.succs x ⊆ g.nodeSet := by
  unfold succs nodeSet
  cases h : lookupSucc g.edges x
  · simp
  · exact fun y hy =>
      Finset.mem_union_right _ (subset_allSuccs_of_lookup x g.edges _ h hy)

/-- Along any reachability chain, leaving a closed visited set forces passage
through the frontier list `L`. -/
theorem reach_exit (g : SceneGraph) (visited : Finset SceneId) (L : List SceneId)
    (closure : ∀ v ∈ visited, ∀ w ∈ g.succs v, w ∈ visited ∨ w ∈ L) (x : SceneId) :
    ∀ a, g.Reaches a x → a ∈ visited →
      x ∈ visited ∨ ∃ m ∈ L, g.Reaches m x := by
  intro a hax
  induction hax using Relation.ReflTransGen.head_induction_on with
  | refl => intro h; exact Or.inl h
  | head hac hcx ih =>
    intro ha
    rcases closure _ ha _ hac with hc | hc
    · exact ih hc
    · exact Or.inr ⟨_, hc, hcx⟩

/-- Soundness of the descendant search: a `true` answer exhibits reachability
from some stack entry. -/
theorem dfs_sound (g : SceneGraph) (t : SceneId) :
    ∀ fuel stack visited, dfs g t fuel stack visited = true →
      ∃ n ∈ stack, g.Reaches n t := by
  intro fuel
  induction fuel with
  | zero => intro stack visited h; simp [dfs] at h
  | succ fuel ih =>
    intro stack visited h
    cases stack with
    | nil => simp [dfs] at h
    | cons node rest =>
      by_cases ht : node = t
      · exact ⟨node, List.mem_cons_self _ _, ht ▸ Relation.ReflTransGen.refl⟩
      · rw [dfs, if_neg ht] at h
        by_cases hv : node ∈ visited
        · rw [if_pos hv] at h
          obtain ⟨n, hn, hr⟩ := ih _ _ h
          exact ⟨n, List.mem_cons_of_mem _ hn, hr⟩
        · rw [if_neg hv] at h
          obtain ⟨n, hn, hr⟩ := ih _ _ h
          rcases List.mem_append.mp hn with hns | hns
          · have hadj : g.Adj node n := (mem_elems _ _).mp hns
            exact ⟨node, List.mem_cons_self _ _, Relation.ReflTransGen.head hadj hr⟩
          · exact ⟨n, List.mem_cons_of_mem _ hns, hr⟩

/-- Completeness of the descendant search: with enough fuel and a closed
visited set, reachability of the target from a stack entry forces a `true`
answer. -/
theorem dfs_complete (g : SceneGraph) (t : SceneId) (U : Finset SceneId)
    (hU : ∀ x, g.succs x ⊆ U) :
    ∀ fuel stack visited,
      (∀ n ∈ stack, n ∈ U) →
      stack.length + (U \ visited).card * (U.card + 1) ≤ fuel →
      (∀ v ∈ visited, ∀ w ∈ g.succs v, w ∈ visited ∨ w ∈ stack) →
      t ∉ visited →
      (∃ n ∈ stack, g.Reaches n t) →
      dfs g t fuel stack visited = true := by
  intro fuel
  induction fuel with
  | zero =>
    intro stack visited hsU hfuel hclo htv hex
    obtain ⟨n, hn, _⟩ := hex
    cases stack with
    | nil => cases hn
    | cons a l => simp [List.length_cons] at hfuel
  | succ fuel ih =>
    intro stack visited hsU hfuel hclo htv hex
    cases stack with
    | nil =>
      obtain ⟨n, hn, _⟩ := hex
      cases hn
    | cons node rest =>
      by_cases ht : node = t
      · rw [dfs, if_pos ht]
      · rw [dfs, if_neg ht]
        by_cases hv : node ∈ visited
        · rw [if_pos hv]
          apply ih rest visited
          · exact fun n hn => hsU n (List.mem_cons_of_mem _ hn)
          · simp only [List.length_cons] at hfuel; omega
          · intro v hvv w hw
            rcases hclo v hvv w hw with h | h
            · exact Or.inl h
            · rcases List.mem_cons.mp h with rfl | h
              · exact Or.inl hv
              · exact Or.inr h
          · exact htv
          · obtain ⟨n, hn, hr⟩ := hex
            rcases List.mem_cons.mp hn with rfl | hn
            · have hclo' : ∀ v ∈ visited, ∀ w ∈ g.succs v,
                  w ∈ visited ∨ w ∈ rest := by
                intro v hvv w hw
                rcases hclo v hvv w hw with h | h
                · exact Or.inl h
                · rcases List.mem_cons.mp h with rfl | h
                  · exact Or.inl hv
                  · exact Or.inr h
              rcases reach_exit g visited rest hclo' t n hr hv with h | ⟨m, hm, hmr⟩
              · exact absurd h htv
              · exact ⟨m, hm, hmr⟩
            · exact ⟨n, hn, hr⟩
        · rw [if_neg hv]
          have hnodeU : node ∈ U := hsU node (List.mem_cons_self _ _)
          apply ih
          · intro n hn
            rcases List.mem_append.mp hn with hns | hns
            · exact hU node ((mem_elems _ _).mp hns)
            · exact hsU n (List.mem_cons_of_mem _ hns)
          · have h1 : U \ insert node visited = (U \ visited).erase node := by
              rw [Finset.sdiff_insert]
            have h2 : node ∈ U \ visited := Finset.mem_sdiff.mpr ⟨hnodeU, hv⟩
            have h3 : ((U \ visited).erase node).card = (U \ visited).card - 1 :=
              Finset.card_erase_of_mem h2
            have h4 : 1 ≤ (U \ visited).card := Finset.card_pos.mpr ⟨node, h2⟩
            have h5 : (elems (g.succs node)).length ≤ U.card := by
              rw [length_elems]
              exact Finset.card_le_card (hU node)
            have h6 : ((U \ visited).card - 1) * (U.card + 1) + (U.card + 1) =
                (U \ visited).card * (U.card + 1) := by
              rw [Nat.sub_mul, one_mul,
                Nat.sub_add_cancel (Nat.le_mul_of_pos_left _ h4)]
            simp only [List.length_append, List.length_cons] at hfuel ⊢
            rw [h1, h3]
            omega
          · intro v hvv w hw
            rcases Finset.mem_insert.mp hvv with rfl | hvv
            · exact Or.inr (List.mem_append.mpr (Or.inl ((mem_elems _ _).mpr hw)))
            · rcases hclo v hvv w hw with h | h
              · exact Or.inl (Finset.mem_insert_of_mem h)
              · rcases List.mem_cons.mp h with rfl | h
                · exact Or.inl (Finset.mem_insert_self _ _)
                · exact Or.inr (List.mem_append.mpr (Or.inr h))
          · intro hmem
            rcases Finset.mem_insert.mp hmem with h | h
            · exact ht h.symm
            · exact htv h
          · obtain ⟨n, hn, hr⟩ := hex
            rcases List.mem_cons.mp hn with rfl | hn
            · rcases Relation.ReflTransGen.cases_head hr with h | ⟨c, hc, hcr⟩
              · exact absurd h ht
              · exact ⟨c, List.mem_append.mpr (Or.inl ((mem_elems _ _).mpr hc)), hcr⟩
            · exact ⟨n, List.mem_append.mpr (Or.inr hn), hr⟩

/-- The descendant search of the source decides reachability. -/
theorem is_descendant_iff_reaches (g : SceneGraph) (s t : SceneId) :
    g.is_descendant s t = true ↔ g.Reaches s t := by
  constructor
  · intro h
    obtain ⟨n, hn, hr⟩ := dfs_sound g t _ _ _ h
    rw [List.mem_singleton] at hn
    exact hn ▸ hr
  · intro hr
    apply dfs_complete g t (insert s g.nodeSet)
      (fun x => (succs_subset_nodeSet g x).trans (Finset.subset_insert s _))
    · intro n hn
      rw [List.mem_singleton] at hn
      subst hn
      exact Finset.mem_insert_self n _
    · simp [descFuel, Finset.sdiff_empty, List.length_singleton]
    · intro v hv
      exact absurd hv (Finset.not_mem_empty v)
    · exact Finset.not_mem_empty t
    · exact ⟨s, List.mem_singleton_self s, hr⟩

theorem not_reaches_of_is_descendant_false (g : SceneGraph) (s t : SceneId)
    (h : g.is_descendant s t = false) : ¬ g.Reaches s t := by
  intro hr
  rw [(is_descendant_iff_reaches g s t).mpr hr] at h
  cases h

end SceneGraph

namespace SceneGraph

/-- The traversal only ever grows the visited set. -/
theorem visit_mono (g : SceneGraph) :
    ∀ fuel stack visited, visited ⊆ visitAll g fuel stack visited := by
  intro fuel
  induction fuel with
  | zero => intro stack visited; rw [visitAll]
  | succ fuel ih =>
    intro stack visited
    cases stack with
    | nil => rw [visitAll]
    | cons node rest =>
      by_cases hv : node ∈ visited
      · rw [visitAll, if_pos hv]
        exact ih _ _
      · rw [visitAll, if_neg hv]
        exact (Finset.subset_insert node visited).trans (ih _ _)

/-- Soundness of the traversal: everything visited was already visited or is
reachable from a stack entry. -/
theorem visit_sound (g : SceneGraph) (x : SceneId) :
    ∀ fuel stack visited, x ∈ visitAll g fuel stack visited →
      x ∈ visited ∨ ∃ n ∈ stack, g.Reaches n x := by
  intro fuel
  induction fuel with
  | zero =>
    intro stack visited h
    rw [visitAll] at h
    exact Or.inl h
  | succ fuel ih =>
    intro stack visited h
    cases stack with
    | nil =>
      rw [visitAll] at h
      exact Or.inl h
    | cons node rest =>
      by_cases hv : node ∈ visited
      · rw [visitAll, if_pos hv] at h
        rcases ih _ _ h with h | ⟨n, hn, hr⟩
        · exact Or.inl h
        · exact Or.inr ⟨n, List.mem_cons_of_mem _ hn, hr⟩
      · rw [visitAll, if_neg hv] at h
        rcases ih _ _ h with h | ⟨n, hn, hr⟩
        · rcases Finset.mem_insert.mp h with rfl | h
          · exact Or.inr ⟨x, List.mem_cons_self _ _, Relation.ReflTransGen.refl⟩
          · exact Or.inl h
        · rcases List.mem_append.mp hn with hns | hns
          · have hadj : g.Adj node n := (mem_elems _ _).mp hns
            exact Or.inr ⟨node, List.mem_cons_self _ _,
              Relation.ReflTransGen.head hadj hr⟩
          · exact Or.inr ⟨n, List.mem_cons_of_mem _ hns, hr⟩

/-- Completeness of the traversal: with enough fuel and a closed visited set,
everything reachable from a stack entry ends up visited. -/
theorem visit_complete (g : SceneGraph) (x : SceneId) (U : Finset SceneId)
    (hU : ∀ y, g.succs y ⊆ U) :
    ∀ fuel stack visited,
      (∀ n ∈ stack, n ∈ U) →
      stack.length + (U \ visited).card * (U.card + 1) ≤ fuel →
      (∀ v ∈ visited, ∀ w ∈ g.succs v, w ∈ visited ∨ w ∈ stack) →
      (x ∈ visited ∨ ∃ n ∈ stack, g.Reaches n x) →
      x ∈ visitAll g fuel stack visited := by
  intro fuel
  induction fuel with
  | zero =>
    intro stack visited hsU hfuel hclo hex
    rcases hex with h | ⟨n, hn, _⟩
    · rw [visitAll]; exact h
    · cases stack with
      | nil => cases hn
      | cons a l => simp [List.length_cons] at hfuel
  | succ fuel ih =>
    intro stack visited hsU hfuel hclo hex
    cases stack with
    | nil =>
      rcases hex with h | ⟨n, hn, _⟩
      · rw [visitAll]; exact h
      · cases hn
    | cons node rest =>
      by_cases hv : node ∈ visited
      · rw [visitAll, if_pos hv]
        apply ih rest visited
        · exact fun n hn => hsU n (List.mem_cons_of_mem _ hn)
        · simp only [List.length_cons] at hfuel; omega
        · intro v hvv w hw
          rcases hclo v hvv w hw with h | h
          · exact Or.inl h
          · rcases List.mem_cons.mp h with rfl | h
            · exact Or.inl hv
            · exact Or.inr h
        · rcases hex with h | ⟨n, hn, hr⟩
          · exact Or.inl h
          · rcases List.mem_cons.mp hn with rfl | hn
            · have hclo' : ∀ v ∈ visited, ∀ w ∈ g.succs v,
                  w ∈ visited ∨ w ∈ rest := by
                intro v hvv w hw
                rcases hclo v hvv w hw with h | h
                · exact Or.inl h
                · rcases List.mem_cons.mp h with rfl | h
                  · exact Or.inl hv
                  · exact Or.inr h
              rcases reach_exit g visited rest hclo' x n hr hv with h | ⟨m, hm, hmr⟩
              · exact Or.inl h
              · exact Or.inr ⟨m, hm, hmr⟩
            · exact Or.inr ⟨n, hn, hr⟩
      · rw [visitAll, if_neg hv]
        have hnodeU : node ∈ U := hsU node (List.mem_cons_self _ _)
        apply ih
        · intro n hn
          rcases List.mem_append.mp hn with hns | hns
          · exact hU node ((mem_elems _ _).mp hns)
          · exact hsU n (List.mem_cons_of_mem _ hns)
        · have h1 : U \ insert node visited = (U \ visited).erase node := by
            rw [Finset.sdiff_insert]
          have h2 : node ∈ U \ visited := Finset.mem_sdiff.mpr ⟨hnodeU, hv⟩
          have h3 : ((U \ visited).erase node).card = (U \ visited).card - 1 :=
            Finset.card_erase_of_mem h2
          have h4 : 1 ≤ (U \ visited).card := Finset.card_pos.mpr ⟨node, h2⟩
          have h5 : (elems (g.succs node)).length ≤ U.card := by
            rw [length_elems]
            exact Finset.card_le_card (hU node)
          have h6 : ((U \ visited).card - 1) * (U.card + 1) + (U.card + 1) =
              (U \ visited).card * (U.card + 1) := by
            rw [Nat.sub_mul, one_mul,
              Nat.sub_add_cancel (Nat.le_mul_of_pos_left _ h4)]
          simp only [List.length_append, List.length_cons] at hfuel ⊢
          rw [h1, h3]
          omega
        · intro v hvv w hw
          rcases Finset.mem_insert.mp hvv with rfl | hvv
          · exact Or.inr (List.mem_append.mpr (Or.inl ((mem_elems _ _).mpr hw)))
          · rcases hclo v hvv w hw with h | h
            · exact Or.inl (Finset.mem_insert_of_mem h)
            · rcases List.mem_cons.mp h with rfl | h
              · exact Or.inl (Finset.mem_insert_self _ _)
              · exact Or.inr (List.mem_append.mpr (Or.inr h))
        · rcases hex with h | ⟨n, hn, hr⟩
          · exact Or.inl (Finset.mem_insert_of_mem h)
          · rcases List.mem_cons.mp hn with rfl | hn
            · rcases Relation.ReflTransGen.cases_head hr with h | ⟨c, hc, hcr⟩
              · exact Or.inl (h ▸ Finset.mem_insert_self n visited)
              · exact Or.inr
                  ⟨c, List.mem_append.mpr (Or.inl ((mem_elems _ _).mpr hc)), hcr⟩
            · exact Or.inr ⟨n, List.mem_append.mpr (Or.inr hn), hr⟩

/-- The visited set computed by `unreachable_scenes` is exactly the set of
identifiers reachable from some root. -/
theorem mem_rootVisited_iff (g : SceneGraph) (x : SceneId) :
    x ∈ visitAll g g.travFuel (elems g.roots) ∅ ↔
      ∃ r ∈ g.roots, g.Reaches r x := by
  constructor
  · intro h
    rcases visit_sound g x _ _ _ h with h | ⟨n, hn, hr⟩
    · exact absurd h (Finset.not_mem_empty x)
    · exact ⟨n, (mem_elems _ _).mp hn, hr⟩
  · intro ⟨r, hr, hrx⟩
    apply visit_complete g x (g.roots ∪ g.nodeSet)
      (fun y => (succs_subset_nodeSet g y).trans Finset.subset_union_right)
    · exact fun n hn => Finset.mem_union_left _ ((mem_elems _ _).mp hn)
    · rw [travFuel, Finset.sdiff_empty, length_elems]
      omega
    · intro v hv
      exact absurd hv (Finset.not_mem_empty v)
    · exact Or.inr ⟨r, (mem_elems _ _).mpr hr, hrx⟩

/-- Membership characterisation of `unreachable_scenes`. -/
theorem mem_unreachable_scenes_iff (g : SceneGraph) (x : SceneId) :
    x ∈ g.unreachable_scenes ↔
      containsKey g.edges x = true ∧ ¬ ∃ r ∈ g.roots, g.Reaches r x := by
  unfold unreachable_scenes
  rw [Finset.mem_filter, mem_keysFinset, mem_rootVisited_iff]

end SceneGraph

namespace SceneGraph

/-! Case-analysis equations for `move_scene`, one per control path of the
source. -/

theorem move_scene_missing_scene (g : SceneGraph) (scene from_ dest : SceneId)
    (h1 : containsKey g.edges scene = false) :
    g.move_scene scene from_ dest = (g, .error (.SceneNotInGraph scene)) := by
  unfold move_scene
  rw [if_pos h1]

theorem move_scene_missing_from (g : SceneGraph) (scene from_ dest : SceneId)
    (h1 : containsKey g.edges scene = true)
    (h2 : containsKey g.edges from_ = false) :
    g.move_scene scene from_ dest = (g, .error (.SceneNotInGraph from_)) := by
  unfold move_scene
  rw [h1]
  simp only [Bool.true_eq_false, if_false]
  rw [if_pos h2]

theorem move_scene_missing_dest (g : SceneGraph) (scene from_ dest : SceneId)
    (h1 : containsKey g.edges scene = true)
    (h2 : containsKey g.edges from_ = true)
    (h3 : containsKey g.edges dest = false) :
    g.move_scene scene from_ dest = (g, .error (.SceneNotInGraph dest)) := by
  unfold move_scene
  rw [h1, h2]
  simp only [Bool.true_eq_false, if_false]
  rw [if_pos h3]

theorem move_scene_self (g : SceneGraph) (scene from_ dest : SceneId)
    (h1 : containsKey g.edges scene = true)
    (h2 : containsKey g.edges from_ = true)
    (h3 : containsKey g.edges dest = true)
    (he : from_ = dest) :
    g.move_scene scene from_ dest = (g, .ok (.Move scene from_ dest)) := by
  unfold move_scene
  rw [h1, h2, h3]
  simp only [Bool.true_eq_false, if_false]
  rw [if_pos he]

theorem move_scene_invalid (g : SceneGraph) (scene from_ dest : SceneId)
    (h1 : containsKey g.edges scene = true)
    (h2 : containsKey g.edges from_ = true)
    (h3 : containsKey g.edges dest = true)
    (hne : from_ ≠ dest)
    (hnm : scene ∉ g.succs from_) :
    g.move_scene scene from_ dest = (g, .error (.InvalidMove scene from_ dest)) := by
  unfold move_scene
  rw [h1, h2, h3]
  simp only [Bool.true_eq_false, if_false]
  rw [if_neg hne, if_pos hnm]

theorem move_scene_cycle (g : SceneGraph) (scene from_ dest : SceneId)
    (h1 : containsKey g.edges scene = true)
    (h2 : containsKey g.edges from_ = true)
    (h3 : containsKey g.edges dest = true)
    (hne : from_ ≠ dest)
    (hmem : scene ∈ g.succs from_)
    (hd : is_descendant ⟨setSucc g.edges from_ ((g.succs from_).erase scene), g.roots⟩
        dest scene = true) :
    g.move_scene scene from_ dest =
      (⟨setSucc (setSucc g.edges from_ ((g.succs from_).erase scene)) from_
          (insert scene ((g.succs from_).erase scene)), g.roots⟩,
        .error (.CycleDetected scene dest)) := by
  unfold move_scene
  rw [h1, h2, h3]
  simp only [Bool.true_eq_false, if_false]
  rw [if_neg hne, if_neg (not_not_intro hmem)]
  simp only [hd, if_true]

theorem move_scene_ok (g : SceneGraph) (scene from_ dest : SceneId)
    (h1 : containsKey g.edges scene = true)
    (h2 : containsKey g.edges from_ = true)
    (h3 : containsKey g.edges dest = true)
    (hne : from_ ≠ dest)
    (hmem : scene ∈ g.succs from_)
    (hd : is_descendant ⟨setSucc g.edges from_ ((g.succs from_).erase scene), g.roots⟩
        dest scene = false) :
    g.move_scene scene from_ dest =
      (⟨setSucc (setSucc g.edges from_ ((g.succs from_).erase scene)) dest
          (insert scene
            (succs ⟨setSucc g.edges from_ ((g.succs from_).erase scene), g.roots⟩ dest)),
        g.roots⟩,
        .ok (.Move scene from_ dest)) := by
  unfold move_scene
  rw [h1, h2, h3]
  simp only [Bool.true_eq_false, if_false]
  rw [if_neg hne, if_neg (not_not_intro hmem)]
  simp only [hd, Bool.false_eq_true, if_false]

end SceneGraph

namespace SceneGraph

theorem containsKey_purgeKey (a b : SceneId) (l : Edges) :
    containsKey (purgeKey l a) b = (containsKey l b && (b != a)) := by
  unfold containsKey
  rw [lookupSucc_purgeKey]
  by_cases hb : b = a
  · simp [hb]
  · simp [hb]

/-- Any successful `move_scene` reports exactly the requested move. -/
theorem move_scene_ok_update (g : SceneGraph) (scene from_ dest : SceneId)
    (u : StoryboardUpdate) (h : (g.move_scene scene from_ dest).2 = .ok u) :
    u = .Move scene from_ dest := by
  cases h1 : containsKey g.edges scene with
  | false => rw [move_scene_missing_scene g scene from_ dest h1] at h; cases h
  | true =>
  cases h2 : containsKey g.edges from_ with
  | false => rw [move_scene_missing_from g scene from_ dest h1 h2] at h; cases h
  | true =>
  cases h3 : containsKey g.edges dest with
  | false => rw [move_scene_missing_dest g scene from_ dest h1 h2 h3] at h; cases h
  | true =>
  by_cases he : from_ = dest
  · rw [move_scene_self g scene from_ dest h1 h2 h3 he] at h
    exact (Option.some.inj (congrArg Except.toOption h)).symm
  by_cases hm : scene ∈ g.succs from_
  · cases hd : is_descendant ⟨setSucc g.edges from_ ((g.succs from_).erase scene), g.roots⟩
        dest scene with
    | true => rw [move_scene_cycle g scene from_ dest h1 h2 h3 he hm hd] at h; cases h
    | false =>
      rw [move_scene_ok g scene from_ dest h1 h2 h3 he hm hd] at h
      exact (Option.some.inj (congrArg Except.toOption h)).symm
  · rw [move_scene_invalid g scene from_ dest h1 h2 h3 he hm] at h; cases h

end SceneGraph

/-- C1.  With all three identifiers in the graph, `from != dest` and `scene`
currently a successor of `from`, `move_scene` fails with
`CycleDetected(scene, dest)` exactly when `scene` is reachable from `dest`
in the graph with the `from → scene` edge already removed; otherwise it
succeeds and inserts `scene` into `dest`'s successor set. -/
theorem C1_move_scene_cycle_policy (g : SceneGraph) (scene from_ dest : SceneId)
    (h1 : containsKey g.edges scene = true)
    (h2 : containsKey g.edges from_ = true)
    (h3 : containsKey g.edges dest = true)
    (hne : from_ ≠ dest)
    (hmem : scene ∈ g.succs from_) :
    ((g.move_scene scene from_ dest).2 = .error (.CycleDetected scene dest) ↔
      SceneGraph.Reaches
        ⟨setSucc g.edges from_ ((g.succs from_).erase scene), g.roots⟩ dest scene)
    ∧ (¬ SceneGraph.Reaches
          ⟨setSucc g.edges from_ ((g.succs from_).erase scene), g.roots⟩ dest scene →
        (g.move_scene scene from_ dest).2 = .ok (.Move scene from_ dest)
        ∧ scene ∈ (g.move_scene scene from_ dest).1.succs dest) := by
  cases hd : SceneGraph.is_descendant
      ⟨setSucc g.edges from_ ((g.succs from_).erase scene), g.roots⟩ dest scene with
  | true =>
    have hreach := (SceneGraph.is_descendant_iff_reaches _ dest scene).mp hd
    rw [SceneGraph.move_scene_cycle g scene from_ dest h1 h2 h3 hne hmem hd]
    exact ⟨by simp [hreach], fun hc => absurd hreach hc⟩
  | false =>
    have hnreach := SceneGraph.not_reaches_of_is_descendant_false _ dest scene hd
    rw [SceneGraph.move_scene_ok g scene from_ dest h1 h2 h3 hne hmem hd]
    refine ⟨by simp [hnreach], fun _ => ⟨rfl, ?_⟩⟩
    show scene ∈ (lookupSucc (setSucc _ dest _) dest).getD ∅
    rw [lookupSucc_setSucc_self]
    · exact Finset.mem_insert_self scene _
    · rw [containsKey_setSucc]
      exact h3

/-- Witness for C1 on the concrete graph 0 → 1, 2 isolated: moving 1 from 0
under 2 creates no cycle, so the move succeeds and 1 becomes a successor of
2. -/
theorem C1_move_scene_cycle_policy_witness :
    containsKey (⟨[(0, {1}), (1, ∅), (2, ∅)], ∅⟩ : SceneGraph).edges 1 = true
    ∧ containsKey (⟨[(0, {1}), (1, ∅), (2, ∅)], ∅⟩ : SceneGraph).edges 0 = true
    ∧ containsKey (⟨[(0, {1}), (1, ∅), (2, ∅)], ∅⟩ : SceneGraph).edges 2 = true
    ∧ (0 : SceneId) ≠ 2
    ∧ (1 : SceneId) ∈ (⟨[(0, {1}), (1, ∅), (2, ∅)], ∅⟩ : SceneGraph).succs 0
    ∧ (((⟨[(0, {1}), (1, ∅), (2, ∅)], ∅⟩ : SceneGraph).move_scene 1 0 2).2 =
          .error (.CycleDetected 1 2) ↔
        SceneGraph.Reaches
          ⟨setSucc (⟨[(0, {1}), (1, ∅), (2, ∅)], ∅⟩ : SceneGraph).edges 0
            (((⟨[(0, {1}), (1, ∅), (2, ∅)], ∅⟩ : SceneGraph).succs 0).erase 1), ∅⟩
          2 1) :=
  ⟨by decide, by decide, by decide, by decide, by decide,
    (C1_move_scene_cycle_policy ⟨[(0, {1}), (1, ∅), (2, ∅)], ∅⟩ 1 0 2
      (by decide) (by decide) (by decide) (by decide) (by decide)).1⟩

/-- C2.  On a well-formed graph (a Rust `HashMap` has no duplicate keys),
every error return of `move_scene`, `delete_scene` or `delete_edge` leaves
the graph exactly as it was before the call; in the `CycleDetected` case the
removed edge has been restored. -/
theorem C2_failure_atomicity (g : SceneGraph) (hwf : g.WF) :
    (∀ scene from_ dest e, (g.move_scene scene from_ dest).2 = .error e →
      (g.move_scene scene from_ dest).1 = g)
    ∧ (∀ id e, (g.delete_scene id).2 = .error e → (g.delete_scene id).1 = g)
    ∧ (∀ from_ dest e, (g.delete_edge from_ dest).2 = .error e →
        (g.delete_edge from_ dest).1 = g) := by
  refine ⟨?_, ?_, ?_⟩
  · intro scene from_ dest e herr
    cases h1 : containsKey g.edges scene with
    | false => rw [SceneGraph.move_scene_missing_scene g scene from_ dest h1]
    | true =>
    cases h2 : containsKey g.edges from_ with
    | false => rw [SceneGraph.move_scene_missing_from g scene from_ dest h1 h2]
    | true =>
    cases h3 : containsKey g.edges dest with
    | false => rw [SceneGraph.move_scene_missing_dest g scene from_ dest h1 h2 h3]
    | true =>
    by_cases he : from_ = dest
    · rw [SceneGraph.move_scene_self g scene from_ dest h1 h2 h3 he]
    by_cases hm : scene ∈ g.succs from_
    · cases hd : SceneGraph.is_descendant
          ⟨setSucc g.edges from_ ((g.succs from_).erase scene), g.roots⟩ dest scene with
      | false =>
        rw [SceneGraph.move_scene_ok g scene from_ dest h1 h2 h3 he hm hd] at herr
        cases herr
      | true =>
        rw [SceneGraph.move_scene_cycle g scene from_ dest h1 h2 h3 he hm hd]
        show SceneGraph.mk
          (setSucc (setSucc g.edges from_ ((g.succs from_).erase scene)) from_
            (insert scene ((g.succs from_).erase scene))) g.roots = g
        rw [setSucc_setSucc, Finset.insert_erase hm]
        obtain ⟨s, hs⟩ := Option.isSome_iff_exists.mp h2
        have hsuccs : g.succs from_ = s := by rw [SceneGraph.succs, hs]; rfl
        rw [hsuccs, setSucc_lookup_self from_ g.edges hwf s hs]
    · rw [SceneGraph.move_scene_invalid g scene from_ dest h1 h2 h3 he hm]
  · intro id e herr
    cases h1 : containsKey g.edges id with
    | false =>
      unfold SceneGraph.delete_scene
      rw [if_pos h1]
    | true =>
      unfold SceneGraph.delete_scene at herr
      rw [if_neg (by simp [h1])] at herr
      cases herr
  · intro from_ dest e herr
    unfold SceneGraph.delete_edge at herr ⊢
    cases hl : lookupSucc g.edges from_ with
    | none => rfl
    | some s =>
      rw [hl] at herr
      cases herr

/-- Witness for C2 on the two-cycle graph 0 ⇄ 1: moving 1 from under 0 to
under 1 itself is detected as a cycle and the graph is returned unchanged. -/
theorem C2_failure_atomicity_witness :
    (⟨[(0, {1}), (1, {0})], ∅⟩ : SceneGraph).WF
    ∧ ((⟨[(0, {1}), (1, {0})], ∅⟩ : SceneGraph).move_scene 1 0 1).2 =
        .error (.CycleDetected 1 1)
    ∧ ((⟨[(0, {1}), (1, {0})], ∅⟩ : SceneGraph).move_scene 1 0 1).1 =
        (⟨[(0, {1}), (1, {0})], ∅⟩ : SceneGraph) :=
  ⟨by decide, by decide,
    (C2_failure_atomicity ⟨[(0, {1}), (1, {0})], ∅⟩ (by decide)).1 1 0 1
      (.CycleDetected 1 1) (by decide)⟩

/-- C5.  Every successful `move_scene(scene, from, dest)` with `from ≠ dest`
removes `scene` from `from`'s successors and makes it a successor of
`dest`. -/
theorem C5_move_scene_postcondition (g : SceneGraph) (scene from_ dest : SceneId)
    (u : StoryboardUpdate) (hne : from_ ≠ dest)
    (h : (g.move_scene scene from_ dest).2 = .ok u) :
    scene ∉ (g.move_scene scene from_ dest).1.succs from_
    ∧ scene ∈ (g.move_scene scene from_ dest).1.succs dest := by
  cases h1 : containsKey g.edges scene with
  | false => rw [SceneGraph.move_scene_missing_scene g scene from_ dest h1] at h; cases h
  | true =>
  cases h2 : containsKey g.edges from_ with
  | false => rw [SceneGraph.move_scene_missing_from g scene from_ dest h1 h2] at h; cases h
  | true =>
  cases h3 : containsKey g.edges dest with
  | false => rw [SceneGraph.move_scene_missing_dest g scene from_ dest h1 h2 h3] at h; cases h
  | true =>
  by_cases hm : scene ∈ g.succs from_
  · cases hd : SceneGraph.is_descendant
        ⟨setSucc g.edges from_ ((g.succs from_).erase scene), g.roots⟩ dest scene with
    | true => rw [SceneGraph.move_scene_cycle g scene from_ dest h1 h2 h3 hne hm hd] at h; cases h
    | false =>
      rw [SceneGraph.move_scene_ok g scene from_ dest h1 h2 h3 hne hm hd]
      constructor
      · show scene ∉ (lookupSucc (setSucc (setSucc g.edges from_ _) dest _) from_).getD ∅
        rw [lookupSucc_setSucc_ne dest from_ _ hne,
          lookupSucc_setSucc_self from_ _ g.edges h2]
        exact Finset.not_mem_erase scene _
      · show scene ∈ (lookupSucc (setSucc (setSucc g.edges from_ _) dest _) dest).getD ∅
        rw [lookupSucc_setSucc_self dest _ _ (by rw [containsKey_setSucc]; exact h3)]
        exact Finset.mem_insert_self scene _
  · rw [SceneGraph.move_scene_invalid g scene from_ dest h1 h2 h3 hne hm] at h; cases h

/-- Witness for C5: moving 1 from under 0 to under 2 in the graph 0 → 1 with
2 isolated leaves 1 out of 0's successors and inside 2's. -/
theorem C5_move_scene_postcondition_witness :
    (0 : SceneId) ≠ 2
    ∧ ((⟨[(0, {1}), (1, ∅), (2, ∅)], ∅⟩ : SceneGraph).move_scene 1 0 2).2 =
        .ok (.Move 1 0 2)
    ∧ (1 : SceneId) ∉
        (((⟨[(0, {1}), (1, ∅), (2, ∅)], ∅⟩ : SceneGraph).move_scene 1 0 2).1.succs 0)
    ∧ (1 : SceneId) ∈
        (((⟨[(0, {1}), (1, ∅), (2, ∅)], ∅⟩ : SceneGraph).move_scene 1 0 2).1.succs 2) := by
  refine ⟨by decide, by decide, ?_⟩
  have := C5_move_scene_postcondition ⟨[(0, {1}), (1, ∅), (2, ∅)], ∅⟩ 1 0 2
    (.Move 1 0 2) (by decide) (by decide)
  exact ⟨this.1, this.2⟩

/-- The scenario graph of C4: scenes A,B,C,D as 0,1,2,3 with edges A→B, B→C,
A→D, built through the public constructors. -/
def c4Graph : SceneGraph :=
  (((((((SceneGraph.new.add_scene 0).1.add_scene 1).1.add_scene 2).1.add_scene
    3).1.add_edge 0 1).1.add_edge 1 2).1.add_edge 0 3).1

/-- Counterexample to C4: after the successful `move_scene(C, B, A)` (which
removes the edge B→C), the call `move_scene(B, A, C)` does NOT fail with
`CycleDetected` — it succeeds, because C no longer reaches B. -/
theorem C4_counterexample :
    (c4Graph.move_scene 2 1 0).2 = .ok (.Move 2 1 0)
    ∧ ¬ (((c4Graph.move_scene 2 1 0).1.move_scene 1 0 2).2 =
          .error (.CycleDetected 1 2)) := by
  decide

/-- C4 amended: `move_scene(C, B, A)` succeeds (C is then a successor of A),
and the subsequent `move_scene(B, A, C)` also succeeds — the first move
removed the edge B→C, so B is no longer an ancestor of C — leaving B a
successor of C. -/
theorem C4_amended_scenario :
    (c4Graph.move_scene 2 1 0).2 = .ok (.Move 2 1 0)
    ∧ 2 ∈ (c4Graph.move_scene 2 1 0).1.succs 0
    ∧ ((c4Graph.move_scene 2 1 0).1.move_scene 1 0 2).2 = .ok (.Move 1 0 2)
    ∧ 1 ∈ ((c4Graph.move_scene 2 1 0).1.move_scene 1 0 2).1.succs 2 := by
  decide

namespace SceneGraph

/-- From a node with no successors, only the node itself is reachable. -/
theorem reaches_no_succs (g : SceneGraph) (r : SceneId) (h : g.succs r = ∅)
    (x : SceneId) : g.Reaches r x ↔ x = r := by
  constructor
  · intro hr
    rcases Relation.ReflTransGen.cases_head hr with h' | ⟨c, hc, _⟩
    · exact h'.symm
    · have : c ∈ g.succs r := hc
      rw [h] at this
      exact absurd this (Finset.not_mem_empty c)
  · rintro rfl
    exact Relation.ReflTransGen.refl

end SceneGraph

/-- C7.  `unreachable_scenes` returns exactly the graph members not reachable
from any root (roots reach themselves); with no roots it returns every
member, and with a single successor-less root `r` it returns every member
except `r`. -/
theorem C7_unreachable_scenes_spec (g : SceneGraph) :
    (∀ x, x ∈ g.unreachable_scenes ↔
      containsKey g.edges x = true ∧ ¬ ∃ r ∈ g.roots, g.Reaches r x)
    ∧ (g.roots = ∅ → g.unreachable_scenes = keysFinset g.edges)
    ∧ (∀ r, g.roots = {r} → g.succs r = ∅ →
        g.unreachable_scenes = (keysFinset g.edges).erase r) := by
  refine ⟨SceneGraph.mem_unreachable_scenes_iff g, ?_, ?_⟩
  · intro hr
    ext x
    rw [SceneGraph.mem_unreachable_scenes_iff, mem_keysFinset, hr]
    simp
  · intro r hr hsucc
    ext x
    rw [SceneGraph.mem_unreachable_scenes_iff, Finset.mem_erase, mem_keysFinset, hr]
    simp only [Finset.mem_singleton, exists_eq_left]
    rw [SceneGraph.reaches_no_succs g r hsucc x]
    tauto

/-- Witness for C7 on the graph with members 5 and 7, root 5 and no edges:
the unreachable set is everything but 5. -/
theorem C7_unreachable_scenes_spec_witness :
    (⟨[(5, ∅), (7, ∅)], {5}⟩ : SceneGraph).roots = {5}
    ∧ (⟨[(5, ∅), (7, ∅)], {5}⟩ : SceneGraph).succs 5 = ∅
    ∧ (⟨[(5, ∅), (7, ∅)], {5}⟩ : SceneGraph).unreachable_scenes =
        (keysFinset [(5, ∅), (7, ∅)]).erase 5 :=
  ⟨rfl, by decide,
    (C7_unreachable_scenes_spec ⟨[(5, ∅), (7, ∅)], {5}⟩).2.2 5 rfl (by decide)⟩

/-- C8.  `delete_scene(id)` fails with `SceneNotInGraph(id)` exactly when
`id` is not a graph member; on success `id` is no longer a key, no longer a
root, and appears in no remaining successor set. -/
theorem C8_delete_scene_spec (g : SceneGraph) (id : SceneId) :
    ((g.delete_scene id).2 = .error (.SceneNotInGraph id) ↔
      containsKey g.edges id = false)
    ∧ (containsKey g.edges id = true →
        containsKey (g.delete_scene id).1.edges id = false
        ∧ id ∉ (g.delete_scene id).1.roots
        ∧ ∀ s, id ∉ (g.delete_scene id).1.next_scenes s) := by
  cases h : containsKey g.edges id with
  | false =>
    unfold SceneGraph.delete_scene
    rw [if_pos h]
    exact ⟨by simp, fun htrue => absurd htrue Bool.false_ne_true⟩
  | true =>
    unfold SceneGraph.delete_scene
    rw [if_neg (by simp [h])]
    refine ⟨by simp [h], fun _ => ⟨?_, ?_, ?_⟩⟩
    · show containsKey (purgeKey g.edges id) id = false
      rw [SceneGraph.containsKey_purgeKey]
      simp
    · exact Finset.not_mem_erase id g.roots
    · intro s
      show id ∉ (lookupSucc (purgeKey g.edges id) s).getD ∅
      rw [lookupSucc_purgeKey]
      by_cases hs : s = id
      · simp [hs]
      · rw [if_neg hs]
        cases lookupSucc g.edges s with
        | none => exact Finset.not_mem_empty id
        | some v => exact Finset.not_mem_erase id v

/-- Witness for C8: deleting 5 from the two-member graph 4 ⇄ 5 with root 4
removes it as key, root and successor. -/
theorem C8_delete_scene_spec_witness :
    containsKey (⟨[(4, {5}), (5, {4})], {4, 5}⟩ : SceneGraph).edges 5 = true
    ∧ containsKey ((⟨[(4, {5}), (5, {4})], {4, 5}⟩ : SceneGraph).delete_scene
        5).1.edges 5 = false
    ∧ 5 ∉ ((⟨[(4, {5}), (5, {4})], {4, 5}⟩ : SceneGraph).delete_scene 5).1.roots
    ∧ 5 ∉ ((⟨[(4, {5}), (5, {4})], {4, 5}⟩ : SceneGraph).delete_scene
        5).1.next_scenes 4 := by
  refine ⟨by decide, ?_⟩
  have := (C8_delete_scene_spec ⟨[(4, {5}), (5, {4})], {4, 5}⟩ 5).2 (by decide)
  exact ⟨this.1, this.2.1, this.2.2 4⟩

namespace SceneGraph

/-- The structural invariant of C9: every root is a key and every successor
is a key. -/
def Inv (g : SceneGraph) : Prop :=
  (∀ r ∈ g.roots, containsKey g.edges r = true)
  ∧ (∀ a b, b ∈ g.succs a → containsKey g.edges b = true)

theorem succs_addKey (l : Edges) (id a : SceneId) :
    (lookupSucc (addKey l id) a).getD ∅ = (lookupSucc l a).getD ∅ := by
  by_cases ha : a = id
  · subst ha
    rw [lookupSucc_addKey_self]
    rfl
  · rw [lookupSucc_addKey_ne id a ha]

theorem inv_add_scene (g : SceneGraph) (id : SceneId) (h : Inv g) :
    Inv (g.add_scene id).1 := by
  constructor
  · exact fun r hr => containsKey_addKey_of id r g.edges (h.1 r hr)
  · intro a b hb
    have hsa : succs (g.add_scene id).1 a = g.succs a := succs_addKey g.edges id a
    rw [hsa] at hb
    exact containsKey_addKey_of id b g.edges (h.2 a b hb)

theorem inv_add_root (g : SceneGraph) (id : SceneId) (h : Inv g) :
    Inv (g.add_root id).1 := by
  have hs := inv_add_scene g id h
  constructor
  · intro r hr
    rcases Finset.mem_insert.mp hr with rfl | hr
    · exact containsKey_addKey_self r g.edges
    · exact hs.1 r hr
  · exact hs.2

theorem inv_setSucc (g : SceneGraph) (h : Inv g) (a : SceneId) (s : Finset SceneId)
    (hs : ∀ b ∈ s, containsKey g.edges b = true) :
    Inv ⟨setSucc g.edges a s, g.roots⟩ := by
  constructor
  · intro r hr
    rw [containsKey_setSucc]
    exact h.1 r hr
  · intro x b hb
    rw [containsKey_setSucc]
    by_cases hx : x = a
    · subst hx
      cases hk : containsKey g.edges x with
      | true =>
        have hsx : succs ⟨setSucc g.edges x s, g.roots⟩ x = s := by
          show (lookupSucc (setSucc g.edges x s) x).getD ∅ = s
          rw [lookupSucc_setSucc_self x s g.edges hk]
          rfl
        rw [hsx] at hb
        exact hs b hb
      | false =>
        have heq := setSucc_of_not_contains x s g.edges hk
        rw [heq] at hb
        exact h.2 x b hb
    · have hsx : succs ⟨setSucc g.edges a s, g.roots⟩ x = g.succs x := by
        show (lookupSucc (setSucc g.edges a s) x).getD ∅ = _
        rw [lookupSucc_setSucc_ne a x s hx]
        rfl
      rw [hsx] at hb
      exact h.2 x b hb

theorem inv_add_edge (g : SceneGraph) (from_ dest : SceneId) (h : Inv g) :
    Inv (g.add_edge from_ dest).1 := by
  have hg2 : Inv ((g.add_scene from_).1.add_scene dest).1 :=
    inv_add_scene _ dest (inv_add_scene g from_ h)
  have hck : containsKey (addKey (addKey g.edges from_) dest) from_ = true :=
    containsKey_addKey_of dest from_ _ (containsKey_addKey_self from_ g.edges)
  obtain ⟨s, hs⟩ := Option.isSome_iff_exists.mp hck
  have hsucc2 : ((g.add_scene from_).1.add_scene dest).1.succs from_ = s := by
    show (lookupSucc (addKey (addKey g.edges from_) dest) from_).getD ∅ = s
    rw [hs]
    rfl
  have hres : (g.add_edge from_ dest).1 =
      ⟨setSucc (addKey (addKey g.edges from_) dest) from_ (insert dest s), g.roots⟩ := by
    unfold add_edge
    simp only [add_scene]
    rw [hs]
  rw [hres]
  have := inv_setSucc ((g.add_scene from_).1.add_scene dest).1 hg2 from_
    (insert dest s) ?hmem
  · exact this
  case hmem =>
    intro b hb
    rcases Finset.mem_insert.mp hb with rfl | hb
    · exact containsKey_addKey_self b _
    · have : b ∈ ((g.add_scene from_).1.add_scene dest).1.succs from_ := by
        rw [hsucc2]; exact hb
      exact hg2.2 from_ b this

theorem inv_move_scene (g : SceneGraph) (scene from_ dest : SceneId) (h : Inv g) :
    Inv (g.move_scene scene from_ dest).1 := by
  cases h1 : containsKey g.edges scene with
  | false => rw [move_scene_missing_scene g scene from_ dest h1]; exact h
  | true =>
  cases h2 : containsKey g.edges from_ with
  | false => rw [move_scene_missing_from g scene from_ dest h1 h2]; exact h
  | true =>
  cases h3 : containsKey g.edges dest with
  | false => rw [move_scene_missing_dest g scene from_ dest h1 h2 h3]; exact h
  | true =>
  by_cases he : from_ = dest
  · rw [move_scene_self g scene from_ dest h1 h2 h3 he]; exact h
  by_cases hm : scene ∈ g.succs from_
  · have hg1 : Inv ⟨setSucc g.edges from_ ((g.succs from_).erase scene), g.roots⟩ :=
      inv_setSucc g h from_ _
        (fun b hb => h.2 from_ b (Finset.mem_of_mem_erase hb))
    cases hd : is_descendant
        ⟨setSucc g.edges from_ ((g.succs from_).erase scene), g.roots⟩ dest scene with
    | true =>
      rw [move_scene_cycle g scene from_ dest h1 h2 h3 he hm hd]
      show Inv ⟨setSucc (setSucc g.edges from_ _) from_ _, g.roots⟩
      rw [setSucc_setSucc]
      apply inv_setSucc g h from_
      intro b hb
      rcases Finset.mem_insert.mp hb with rfl | hb
      · exact h1
      · exact h.2 from_ b (Finset.mem_of_mem_erase hb)
    | false =>
      rw [move_scene_ok g scene from_ dest h1 h2 h3 he hm hd]
      apply inv_setSucc _ hg1 dest
      intro b hb
      rcases Finset.mem_insert.mp hb with rfl | hb
      · rw [containsKey_setSucc]; exact h1
      · exact hg1.2 dest b hb
  · rw [move_scene_invalid g scene from_ dest h1 h2 h3 he hm]; exact h

theorem inv_delete_scene (g : SceneGraph) (id : SceneId) (h : Inv g) :
    Inv (g.delete_scene id).1 := by
  unfold delete_scene
  cases hk : containsKey g.edges id with
  | false => rw [if_pos rfl]; exact h
  | true =>
    rw [if_neg (by simp)]
    constructor
    · intro r hr
      have hrr := Finset.mem_of_mem_erase hr
      have hrne : r ≠ id := Finset.ne_of_mem_erase hr
      show containsKey (purgeKey g.edges id) r = true
      rw [containsKey_purgeKey, h.1 r hrr]
      simp [hrne]
    · intro a b hb
      show containsKey (purgeKey g.edges id) b = true
      have hbs : b ∈ (lookupSucc (purgeKey g.edges id) a).getD ∅ := hb
      rw [lookupSucc_purgeKey] at hbs
      by_cases ha : a = id
      · rw [if_pos ha] at hbs
        exact absurd hbs (Finset.not_mem_empty b)
      · rw [if_neg ha] at hbs
        cases hl : lookupSucc g.edges a with
        | none => rw [hl] at hbs; exact absurd hbs (Finset.not_mem_empty b)
        | some v =>
          rw [hl] at hbs
          have hbv : b ∈ v.erase id := hbs
          have hbne : b ≠ id := Finset.ne_of_mem_erase hbv
          have : b ∈ g.succs a := by
            show b ∈ (lookupSucc g.edges a).getD ∅
            rw [hl]
            exact Finset.mem_of_mem_erase hbv
          rw [containsKey_purgeKey, h.2 a b this]
          simp [hbne]

theorem inv_delete_edge (g : SceneGraph) (from_ dest : SceneId) (h : Inv g) :
    Inv (g.delete_edge from_ dest).1 := by
  unfold delete_edge
  cases hl : lookupSucc g.edges from_ with
  | none => exact h
  | some s =>
    apply inv_setSucc g h from_
    intro b hb
    have : b ∈ g.succs from_ := by
      show b ∈ (lookupSucc g.edges from_).getD ∅
      rw [hl]
      exact Finset.mem_of_mem_erase hb
    exact h.2 from_ b this

end SceneGraph

/-- The graphs reachable from `SceneGraph::new` by the public operations of
`scene_graph.rs`. -/
inductive ReachableGraph : SceneGraph → Prop where
  | new : ReachableGraph SceneGraph.new
  | add_scene (g : SceneGraph) (id : SceneId) :
      ReachableGraph g → ReachableGraph (g.add_scene id).1
  | add_root (g : SceneGraph) (id : SceneId) :
      ReachableGraph g → ReachableGraph (g.add_root id).1
  | add_edge (g : SceneGraph) (from_ dest : SceneId) :
      ReachableGraph g → ReachableGraph (g.add_edge from_ dest).1
  | move_scene (g : SceneGraph) (scene from_ dest : SceneId) :
      ReachableGraph g → ReachableGraph (g.move_scene scene from_ dest).1
  | delete_scene (g : SceneGraph) (id : SceneId) :
      ReachableGraph g → ReachableGraph (g.delete_scene id).1
  | delete_edge (g : SceneGraph) (from_ dest : SceneId) :
      ReachableGraph g → ReachableGraph (g.delete_edge from_ dest).1

/-- C9.  In every graph reachable from `SceneGraph::new` by public
operations, the roots are a subset of the keys of `edges`, and every
identifier in any successor set is itself a key. -/
theorem C9_reachable_graph_invariants (g : SceneGraph) (h : ReachableGraph g) :
    (∀ r ∈ g.roots, containsKey g.edges r = true)
    ∧ (∀ a b, b ∈ g.succs a → containsKey g.edges b = true) := by
  induction h with
  | new =>
    constructor
    · intro r hr
      exact absurd hr (Finset.not_mem_empty r)
    · intro a b hb
      exact absurd hb (Finset.not_mem_empty b)
  | add_scene g id _ ih => exact SceneGraph.inv_add_scene g id ih
  | add_root g id _ ih => exact SceneGraph.inv_add_root g id ih
  | add_edge g from_ dest _ ih => exact SceneGraph.inv_add_edge g from_ dest ih
  | move_scene g scene from_ dest _ ih =>
    exact SceneGraph.inv_move_scene g scene from_ dest ih
  | delete_scene g id _ ih => exact SceneGraph.inv_delete_scene g id ih
  | delete_edge g from_ dest _ ih => exact SceneGraph.inv_delete_edge g from_ dest ih

/-- Witness for C9 on the reachable graph built by `add_root 0` then
`add_edge 0 1`: the root 0 and the successor 1 are both keys. -/
theorem C9_reachable_graph_invariants_witness :
    containsKey ((SceneGraph.new.add_root 0).1.add_edge 0 1).1.edges 0 = true
    ∧ containsKey ((SceneGraph.new.add_root 0).1.add_edge 0 1).1.edges 1 = true :=
  ⟨(C9_reachable_graph_invariants ((SceneGraph.new.add_root 0).1.add_edge 0 1).1
      (ReachableGraph.add_edge _ 0 1 (ReachableGraph.add_root _ 0
        ReachableGraph.new))).1 0 (by decide),
    (C9_reachable_graph_invariants ((SceneGraph.new.add_root 0).1.add_edge 0 1).1
      (ReachableGraph.add_edge _ 0 1 (ReachableGraph.add_root _ 0
        ReachableGraph.new))).2 0 1 (by decide)⟩

/-! Lemmas about the scene-bank primitives. -/

theorem bankLookup_append (a : SceneId) (b₁ b₂ : SceneBank) :
    bankLookup (b₁ ++ b₂) a = (bankLookup b₁ a).or (bankLookup b₂ a) := by
  induction b₁ with
  | nil => simp [bankLookup]
  | cons e rest ih =>
    by_cases he : e.1 = a
    · simp [bankLookup, he]
    · simp [bankLookup, he, ih]

theorem bankLookup_bankUpdate (b : SceneBank) (a x : SceneId) (f : Scene → Scene) :
    bankLookup (bankUpdate b a f) x =
      if x = a then (bankLookup b a).map f else bankLookup b x := by
  induction b with
  | nil => by_cases hx : x = a <;> simp [bankUpdate, bankLookup, hx]
  | cons e rest ih =>
    by_cases he : e.1 = a
    · by_cases hx : x = a
      · subst hx
        simp [bankUpdate, bankLookup, he]
      · have hex : e.1 ≠ x := fun h => hx ((h.symm.trans he))
        simp only [bankUpdate, List.map_cons, if_pos he, bankLookup,
          if_neg (fun h : a = x => hx h.symm), if_neg hex, if_neg hx] at ih ⊢
        rw [show List.map _ rest = bankUpdate rest a f from rfl] at ih ⊢
        rw [ih]
    · by_cases hex : e.1 = x
      · have hx : x ≠ a := fun h => he (hex.trans h)
        simp [bankUpdate, bankLookup, he, hex, hx]
      · simp only [bankUpdate, List.map_cons, if_neg he, bankLookup, if_neg hex]
        rw [show List.map _ rest = bankUpdate rest a f from rfl]
        exact ih

theorem bankContains_bankUpdate (b : SceneBank) (a x : SceneId) (f : Scene → Scene) :
    bankContains (bankUpdate b a f) x = bankContains b x := by
  unfold bankContains
  rw [bankLookup_bankUpdate]
  by_cases hx : x = a
  · subst hx
    cases bankLookup b x <;> simp
  · rw [if_neg hx]

theorem bankLookup_bankRemove (a x : SceneId) :
    ∀ b : SceneBank, bankLookup (bankRemove b a) x =
      if x = a then none else bankLookup b x := by
  intro b
  induction b with
  | nil => by_cases hx : x = a <;> simp [bankRemove, bankLookup, hx]
  | cons e rest ih =>
    by_cases hea : e.1 = a
    · have hstep : bankRemove (e :: rest) a = bankRemove rest a := by
        simp [bankRemove, hea]
      rw [hstep, ih]
      by_cases hx : x = a
      · simp [hx]
      · have hex : e.1 ≠ x := fun h => hx ((h.symm.trans hea))
        simp [bankLookup, hex]
    · have hstep : bankRemove (e :: rest) a = e :: bankRemove rest a := by
        simp [bankRemove, hea]
      rw [hstep]
      by_cases hex : e.1 = x
      · have hx : x ≠ a := fun h => hea (hex.trans h)
        simp [bankLookup, hex, hx]
      · simp only [bankLookup, if_neg hex]
        rw [ih]

theorem bankContains_bankRemove (a x : SceneId) (b : SceneBank) :
    bankContains (bankRemove b a) x = (bankContains b x && (x != a)) := by
  unfold bankContains
  rw [bankLookup_bankRemove]
  by_cases hx : x = a
  · simp [hx]
  · simp [hx]

theorem bankLookup_none_of_false (a : SceneId) (b : SceneBank)
    (h : bankContains b a = false) : bankLookup b a = none := by
  unfold bankContains at h
  cases hl : bankLookup b a
  · rfl
  · rw [hl] at h; cases h

theorem bankLookup_bankInsert_self (b : SceneBank) (a : SceneId) (s : Scene) :
    bankLookup (bankInsert b a s) a = some s := by
  unfold bankInsert
  cases h : bankContains b a
  · rw [if_neg (by simp), bankLookup_append, bankLookup_none_of_false a b h]
    simp [bankLookup]
  · rw [if_pos (by simp)]
    rw [show (List.map (fun e => if e.1 = a then (a, s) else e) b) =
      bankUpdate b a (fun _ => s) from rfl]
    rw [bankLookup_bankUpdate, if_pos rfl]
    unfold bankContains at h
    cases hl : bankLookup b a
    · rw [hl] at h; cases h
    · rfl

theorem bankLookup_bankInsert_ne (b : SceneBank) (a x : SceneId) (s : Scene)
    (hx : x ≠ a) : bankLookup (bankInsert b a s) x = bankLookup b x := by
  unfold bankInsert
  cases h : bankContains b a
  · rw [if_neg (by simp), bankLookup_append]
    cases hl : bankLookup b x
    · simp [bankLookup, Ne.symm hx]
    · rfl
  · rw [if_pos (by simp)]
    rw [show (List.map (fun e => if e.1 = a then (a, s) else e) b) =
      bankUpdate b a (fun _ => s) from rfl]
    rw [bankLookup_bankUpdate, if_neg hx]

theorem bankContains_bankInsert (b : SceneBank) (a x : SceneId) (s : Scene) :
    bankContains (bankInsert b a s) x = ((x == a) || bankContains b x) := by
  by_cases hx : x = a
  · subst hx
    unfold bankContains
    rw [bankLookup_bankInsert_self]
    simp
  · unfold bankContains
    rw [bankLookup_bankInsert_ne b a x s hx]
    simp [hx]

namespace Storyboard

/-- `apply_update` only touches metadata in the scene bank; the graph is
untouched. -/
theorem apply_update_scene_graph (sb : Storyboard) (u : StoryboardUpdate)
    (now : Nat) : (sb.apply_update u now).scene_graph = sb.scene_graph := by
  cases u <;> rfl

theorem apply_update_scene_bank_move (sb : Storyboard) (scene from_ dest : SceneId)
    (now : Nat) :
    (sb.apply_update (.Move scene from_ dest) now).scene_bank =
      bankUpdate (bankUpdate (bankUpdate sb.scene_bank scene (fun s => s.touch now))
        from_ (fun s => s.touch now)) dest (fun s => s.touch now) := rfl

theorem apply_update_scene_bank_linked (sb : Storyboard) (from_ dest : SceneId)
    (now : Nat) :
    (sb.apply_update (.LinkedScenes from_ dest) now).scene_bank =
      bankUpdate (bankUpdate sb.scene_bank from_ (fun s => s.touch now)) dest
        (fun s => s.touch now) := rfl

theorem apply_update_scene_bank_edge_deleted (sb : Storyboard) (from_ dest : SceneId)
    (now : Nat) :
    (sb.apply_update (.EdgeDeleted from_ dest) now).scene_bank =
      bankUpdate (bankUpdate sb.scene_bank from_ (fun s => s.touch now)) dest
        (fun s => s.touch now) := rfl

end Storyboard

/-- Counterexample to C3: `set_scene_as_root` performs no `scene_bank`
validation — called with an identifier absent from the bank it cannot fail
(its Rust signature returns no `Result`) and it does modify the graph. -/
theorem C3_counterexample :
    bankContains (Storyboard.default 0).scene_bank 7 = false
    ∧ ((Storyboard.default 0).set_scene_as_root 7).scene_graph.edges ≠
        (Storyboard.default 0).scene_graph.edges := by
  decide

/-- C3 amended: only `link_scenes` and `unlink_scenes` validate against
`scene_bank` (checking `from` before `dest`), failing with `UnknownScene` and
leaving the whole storyboard (graph included) unmodified; `move_scene`
delegates to the graph with no bank validation (absent identifiers surface as
graph-level errors), and `set_scene_as_root` performs no validation, never
fails, and always delegates to the graph. -/
theorem C3_amended_validation (sb : Storyboard) (from_ to_ : SceneId) (now : Nat) :
    (bankContains sb.scene_bank from_ = false →
      sb.link_scenes from_ to_ now = (sb, .error (.UnknownScene from_))
      ∧ sb.unlink_scenes from_ to_ now = (sb, .error (.UnknownScene from_)))
    ∧ (bankContains sb.scene_bank from_ = true →
        bankContains sb.scene_bank to_ = false →
        sb.link_scenes from_ to_ now = (sb, .error (.UnknownScene to_))
        ∧ sb.unlink_scenes from_ to_ now = (sb, .error (.UnknownScene to_)))
    ∧ (∀ scene dest,
        (sb.move_scene scene from_ dest now).2 =
          (sb.scene_graph.move_scene scene from_ dest).2.map (fun _ => ())
        ∧ (sb.move_scene scene from_ dest now).1.scene_graph =
            (sb.scene_graph.move_scene scene from_ dest).1)
    ∧ ((sb.set_scene_as_root from_).scene_graph = (sb.scene_graph.add_root from_).1
        ∧ (sb.set_scene_as_root from_).scene_bank = sb.scene_bank) := by
  refine ⟨?_, ?_, ?_, rfl, rfl⟩
  · intro h1
    constructor
    · unfold Storyboard.link_scenes
      rw [if_pos h1]
    · unfold Storyboard.unlink_scenes
      rw [if_pos h1]
  · intro h1 h2
    constructor
    · unfold Storyboard.link_scenes
      rw [if_neg (by simp [h1]), if_pos h2]
    · unfold Storyboard.unlink_scenes
      rw [if_neg (by simp [h1]), if_pos h2]
  · intro scene dest
    unfold Storyboard.move_scene
    cases hg : sb.scene_graph.move_scene scene from_ dest with
    | mk g r =>
      cases r with
      | error e => exact ⟨rfl, rfl⟩
      | ok u =>
        refine ⟨rfl, ?_⟩
        show (Storyboard.apply_update _ u now).scene_graph = g
        rw [Storyboard.apply_update_scene_graph]

/-- Witness for C3 on an empty storyboard: `link_scenes 3 4` fails with
`UnknownScene 3` and returns the storyboard unchanged. -/
theorem C3_amended_validation_witness :
    bankContains (Storyboard.default 0).scene_bank 3 = false
    ∧ (Storyboard.default 0).link_scenes 3 4 0 =
        (Storyboard.default 0, .error (.UnknownScene 3)) :=
  ⟨by decide,
    ((C3_amended_validation (Storyboard.default 0) 3 4 0).1 (by decide)).1⟩

namespace SceneGraph

theorem delete_edge_ok_update (g : SceneGraph) (from_ dest : SceneId)
    (u : StoryboardUpdate) (h : (g.delete_edge from_ dest).2 = .ok u) :
    u = .EdgeDeleted from_ dest := by
  unfold delete_edge at h
  cases hl : lookupSucc g.edges from_ with
  | none => rw [hl] at h; cases h
  | some s =>
    rw [hl] at h
    exact (Except.ok.inj h).symm

theorem delete_scene_ok_update (g : SceneGraph) (id : SceneId)
    (u : StoryboardUpdate) (h : (g.delete_scene id).2 = .ok u) :
    u = .SceneDeleted id := by
  unfold delete_scene at h
  cases hk : containsKey g.edges id with
  | false => rw [if_pos hk] at h; cases h
  | true =>
    rw [if_neg (by simp [hk])] at h
    exact (Except.ok.inj h).symm

end SceneGraph

/-- Counterexample to C6: `set_scene_as_root` on a scene that is present in
the bank leaves the bank byte-for-byte unchanged — the named scene's version
counter stays at 1 instead of being incremented. -/
theorem C6_counterexample :
    bankContains
      ((Storyboard.default 0).add_scene ⟨5, Metadata.new 0⟩).scene_bank 5 = true
    ∧ (((Storyboard.default 0).add_scene
          ⟨5, Metadata.new 0⟩).set_scene_as_root 5).scene_bank =
        ((Storyboard.default 0).add_scene ⟨5, Metadata.new 0⟩).scene_bank
    ∧ (bankLookup (((Storyboard.default 0).add_scene
          ⟨5, Metadata.new 0⟩).set_scene_as_root 5).scene_bank 5).map
        (fun s => s.metadata.version) = some 1 := by
  decide

/-- C6 amended: a successful `move_scene` touches those of `scene`, `from`,
`dest` that are present in `scene_bank`; `link_scenes` and `unlink_scenes`
touch both endpoints; `add_scene` stores the scene as given and touches
nothing, `set_scene_as_root` leaves the bank untouched, and `delete_scene`
removes the scene from the bank and touches nothing (the deleted scene is
gone before the notification is applied). -/
theorem C6_amended_touch_policy :
    (∀ (sb : Storyboard) (scene from_ dest : SceneId) (now : Nat) (x : SceneId)
      (s : Scene),
      (sb.move_scene scene from_ dest now).2 = .ok () →
      scene ≠ from_ → scene ≠ dest → from_ ≠ dest →
      (x = scene ∨ x = from_ ∨ x = dest) →
      bankLookup sb.scene_bank x = some s →
      bankLookup (sb.move_scene scene from_ dest now).1.scene_bank x =
        some (s.touch now))
    ∧ (∀ (sb : Storyboard) (from_ to_ : SceneId) (now : Nat) (x : SceneId)
        (s : Scene),
        (sb.link_scenes from_ to_ now).2 = .ok () →
        from_ ≠ to_ →
        (x = from_ ∨ x = to_) →
        bankLookup sb.scene_bank x = some s →
        bankLookup (sb.link_scenes from_ to_ now).1.scene_bank x =
          some (s.touch now))
    ∧ (∀ (sb : Storyboard) (from_ to_ : SceneId) (now : Nat) (x : SceneId)
        (s : Scene),
        (sb.unlink_scenes from_ to_ now).2 = .ok () →
        from_ ≠ to_ →
        (x = from_ ∨ x = to_) →
        bankLookup sb.scene_bank x = some s →
        bankLookup (sb.unlink_scenes from_ to_ now).1.scene_bank x =
          some (s.touch now))
    ∧ (∀ (sb : Storyboard) (scene : Scene),
        bankLookup (sb.add_scene scene).scene_bank scene.id = some scene
        ∧ ∀ x, x ≠ scene.id →
            bankLookup (sb.add_scene scene).scene_bank x =
              bankLookup sb.scene_bank x)
    ∧ (∀ (sb : Storyboard) (id : SceneId),
        (sb.set_scene_as_root id).scene_bank = sb.scene_bank)
    ∧ (∀ (sb : Storyboard) (id : SceneId) (now : Nat),
        (∀ sc, bankLookup sb.scene_bank id = some sc → sc.id = id) →
        ∀ x, bankLookup (sb.delete_scene id now).1.scene_bank x =
          bankLookup (bankRemove sb.scene_bank id) x) := by
  refine ⟨?_, ?_, ?_, ?_, fun _ _ => rfl, ?_⟩
  · intro sb scene from_ dest now x s hok hsf hsd hfd hx hlk
    unfold Storyboard.move_scene at hok ⊢
    split at hok
    · simp at hok
    · rename_i g u heq
      have hu : u = .Move scene from_ dest :=
        SceneGraph.move_scene_ok_update sb.scene_graph scene from_ dest u
          (by rw [heq])
      subst hu
      show bankLookup (bankUpdate (bankUpdate (bankUpdate sb.scene_bank scene
        (fun s => s.touch now)) from_ (fun s => s.touch now)) dest
        (fun s => s.touch now)) x = some (s.touch now)
      rcases hx with rfl | rfl | rfl
      · rw [bankLookup_bankUpdate, if_neg hsd, bankLookup_bankUpdate,
          if_neg hsf, bankLookup_bankUpdate, if_pos rfl, hlk]
        rfl
      · rw [bankLookup_bankUpdate, if_neg hfd, bankLookup_bankUpdate,
          if_pos rfl, bankLookup_bankUpdate, if_neg (Ne.symm hsf), hlk]
        rfl
      · rw [bankLookup_bankUpdate, if_pos rfl, bankLookup_bankUpdate,
          if_neg (Ne.symm hfd), bankLookup_bankUpdate, if_neg (Ne.symm hsd), hlk]
        rfl
  · intro sb from_ to_ now x s hok hft hx hlk
    unfold Storyboard.link_scenes at hok ⊢
    split at hok
    · simp at hok
    · rename_i h1
      split at hok
      · simp at hok
      · rename_i h2
        rw [if_neg h1, if_neg h2]
        show bankLookup (bankUpdate (bankUpdate sb.scene_bank from_
          (fun s => s.touch now)) to_ (fun s => s.touch now)) x =
          some (s.touch now)
        rcases hx with rfl | rfl
        · rw [bankLookup_bankUpdate, if_neg hft, bankLookup_bankUpdate,
            if_pos rfl, hlk]
          rfl
        · rw [bankLookup_bankUpdate, if_pos rfl, bankLookup_bankUpdate,
            if_neg (Ne.symm hft), hlk]
          rfl
  · intro sb from_ to_ now x s hok hft hx hlk
    unfold Storyboard.unlink_scenes at hok ⊢
    split at hok
    · simp at hok
    · rename_i h1
      split at hok
      · simp at hok
      · rename_i h2
        rw [if_neg h1, if_neg h2]
        split at hok
        · simp at hok
        · rename_i g u heq
          have hu : u = .EdgeDeleted from_ to_ :=
            SceneGraph.delete_edge_ok_update sb.scene_graph from_ to_ u
              (by rw [heq])
          subst hu
          show bankLookup (bankUpdate (bankUpdate sb.scene_bank from_
            (fun s => s.touch now)) to_ (fun s => s.touch now)) x =
            some (s.touch now)
          rcases hx with rfl | rfl
          · rw [bankLookup_bankUpdate, if_neg hft, bankLookup_bankUpdate,
              if_pos rfl, hlk]
            rfl
          · rw [bankLookup_bankUpdate, if_pos rfl, bankLookup_bankUpdate,
              if_neg (Ne.symm hft), hlk]
            rfl
  · intro sb scene
    constructor
    · exact bankLookup_bankInsert_self sb.scene_bank scene.id scene
    · intro x hx
      exact bankLookup_bankInsert_ne sb.scene_bank scene.id x scene hx
  · intro sb id now hid x
    unfold Storyboard.delete_scene
    split
    · rename_i hb
      rw [bankLookup_bankRemove]
      by_cases hx : x = id
      · subst hx
        rw [if_pos rfl]
        exact hb
      · rw [if_neg hx]
    · rename_i sc hb
      have hscid : sc.id = id := hid sc hb
      dsimp only
      split
      · rfl
      · rename_i g u heq
        have hu : u = .SceneDeleted sc.id :=
          SceneGraph.delete_scene_ok_update _ sc.id u (by rw [heq])
        subst hu
        show bankLookup (bankUpdate (bankRemove sb.scene_bank id) sc.id
          (fun s => s.touch now)) x = bankLookup (bankRemove sb.scene_bank id) x
        rw [bankLookup_bankUpdate, hscid]
        by_cases hx : x = id
        · subst hx
          rw [if_pos rfl, bankLookup_bankRemove, if_pos rfl]
          rfl
        · rw [if_neg hx]

/-- The concrete storyboard used to witness C6: scenes 1, 2, 3 in the bank,
graph edge 1 → 2, scene 3 isolated. -/
def c6Board : Storyboard :=
  ⟨none, [], [(1, ⟨1, Metadata.new 0⟩), (2, ⟨2, Metadata.new 0⟩),
    (3, ⟨3, Metadata.new 0⟩)], [], none, ⟨[(1, {2}), (2, ∅), (3, ∅)], ∅⟩,
    Metadata.new 0⟩

/-- Witness for C6: the successful move of 2 from under 1 to under 3 at
instant 9 touches scene 2's metadata. -/
theorem C6_amended_touch_policy_witness :
    (c6Board.move_scene 2 1 3 9).2 = .ok ()
    ∧ (2 : SceneId) ≠ 1
    ∧ (2 : SceneId) ≠ 3
    ∧ (1 : SceneId) ≠ 3
    ∧ bankLookup c6Board.scene_bank 2 = some ⟨2, Metadata.new 0⟩
    ∧ bankLookup (c6Board.move_scene 2 1 3 9).1.scene_bank 2 =
        some (Scene.touch ⟨2, Metadata.new 0⟩ 9) :=
  ⟨by decide, by decide, by decide, by decide, by decide,
    C6_amended_touch_policy.1 c6Board 2 1 3 9 2 ⟨2, Metadata.new 0⟩
      (by decide) (by decide) (by decide) (by decide) (Or.inl rfl) (by decide)⟩

namespace SceneGraph

theorem move_scene_preserves_keys (g : SceneGraph) (scene from_ dest x : SceneId) :
    containsKey (g.move_scene scene from_ dest).1.edges x = containsKey g.edges x := by
  cases h1 : containsKey g.edges scene with
  | false => rw [move_scene_missing_scene g scene from_ dest h1]
  | true =>
  cases h2 : containsKey g.edges from_ with
  | false => rw [move_scene_missing_from g scene from_ dest h1 h2]
  | true =>
  cases h3 : containsKey g.edges dest with
  | false => rw [move_scene_missing_dest g scene from_ dest h1 h2 h3]
  | true =>
  by_cases he : from_ = dest
  · rw [move_scene_self g scene from_ dest h1 h2 h3 he]
  by_cases hm : scene ∈ g.succs from_
  · cases hd : is_descendant
        ⟨setSucc g.edges from_ ((g.succs from_).erase scene), g.roots⟩ dest scene with
    | true =>
      rw [move_scene_cycle g scene from_ dest h1 h2 h3 he hm hd]
      show containsKey (setSucc (setSucc g.edges from_ _) from_ _) x = _
      rw [containsKey_setSucc, containsKey_setSucc]
    | false =>
      rw [move_scene_ok g scene from_ dest h1 h2 h3 he hm hd]
      show containsKey (setSucc (setSucc g.edges from_ _) dest _) x = _
      rw [containsKey_setSucc, containsKey_setSucc]
  · rw [move_scene_invalid g scene from_ dest h1 h2 h3 he hm]

theorem delete_edge_preserves_keys (g : SceneGraph) (from_ dest x : SceneId) :
    containsKey (g.delete_edge from_ dest).1.edges x = containsKey g.edges x := by
  unfold delete_edge
  cases hl : lookupSucc g.edges from_ with
  | none => rfl
  | some s =>
    show containsKey (setSucc g.edges from_ _) x = _
    rw [containsKey_setSucc]

theorem add_edge_decomp (g : SceneGraph) (from_ dest : SceneId) :
    ∃ s, lookupSucc (addKey (addKey g.edges from_) dest) from_ = some s ∧
      (g.add_edge from_ dest).1 =
        ⟨setSucc (addKey (addKey g.edges from_) dest) from_ (insert dest s),
          g.roots⟩ := by
  have hck : containsKey (addKey (addKey g.edges from_) dest) from_ = true :=
    containsKey_addKey_of dest from_ _ (containsKey_addKey_self from_ g.edges)
  obtain ⟨s, hs⟩ := Option.isSome_iff_exists.mp hck
  refine ⟨s, hs, ?_⟩
  unfold add_edge
  simp only [add_scene]
  rw [hs]

theorem add_edge_keys_mono (g : SceneGraph) (from_ dest x : SceneId)
    (h : containsKey g.edges x = true) :
    containsKey (g.add_edge from_ dest).1.edges x = true := by
  obtain ⟨s, _, hres⟩ := add_edge_decomp g from_ dest
  rw [hres]
  show containsKey (setSucc _ _ _) x = true
  rw [containsKey_setSucc]
  exact containsKey_addKey_of dest x _ (containsKey_addKey_of from_ x _ h)

end SceneGraph

namespace Storyboard

/-- The invariant of C10, strengthened with key/identifier agreement in the
bank (which `Storyboard::delete_scene` relies on when it deletes
`scene.id()` from the graph). -/
def SInv (sb : Storyboard) : Prop :=
  (∀ id, bankContains sb.scene_bank id = true →
    containsKey sb.scene_graph.edges id = true)
  ∧ (∀ id sc, bankLookup sb.scene_bank id = some sc → sc.id = id)

theorem sinv_update_metadata (sb : Storyboard) (a : SceneId) (now : Nat)
    (h : SInv sb) : SInv (sb.update_metadata a now) := by
  constructor
  · intro id hc
    rw [show (sb.update_metadata a now).scene_bank =
      bankUpdate sb.scene_bank a (fun s => s.touch now) from rfl,
      bankContains_bankUpdate] at hc
    exact h.1 id hc
  · intro id sc hl
    rw [show (sb.update_metadata a now).scene_bank =
      bankUpdate sb.scene_bank a (fun s => s.touch now) from rfl,
      bankLookup_bankUpdate] at hl
    by_cases hia : id = a
    · rw [if_pos hia] at hl
      cases hl0 : bankLookup sb.scene_bank a with
      | none => rw [hl0] at hl; cases hl
      | some sc0 =>
        rw [hl0] at hl
        have : sc = sc0.touch now := (Option.some.inj hl).symm
        rw [this, show (sc0.touch now).id = sc0.id from rfl]
        rw [← hia] at hl0
        exact h.2 id sc0 hl0
    · rw [if_neg hia] at hl
      exact h.2 id sc hl

theorem sinv_apply_update (sb : Storyboard) (u : StoryboardUpdate) (now : Nat)
    (h : SInv sb) : SInv (sb.apply_update u now) := by
  cases u with
  | Move scene from_ dest =>
    exact sinv_update_metadata _ dest now
      (sinv_update_metadata _ from_ now (sinv_update_metadata _ scene now h))
  | SceneAdded scene => exact sinv_update_metadata _ scene now h
  | SceneSetAsRoot scene => exact sinv_update_metadata _ scene now h
  | SceneDeleted scene => exact sinv_update_metadata _ scene now h
  | LinkedScenes from_ dest =>
    exact sinv_update_metadata _ dest now (sinv_update_metadata _ from_ now h)
  | EdgeDeleted from_ dest =>
    exact sinv_update_metadata _ dest now (sinv_update_metadata _ from_ now h)

end Storyboard

namespace SceneGraph

theorem delete_scene_error_state (g : SceneGraph) (id : SceneId)
    (e : StoryboardError) (h : (g.delete_scene id).2 = .error e) :
    (g.delete_scene id).1 = g := by
  unfold delete_scene at h ⊢
  cases hk : containsKey g.edges id with
  | false => rw [if_pos rfl]
  | true =>
    rw [if_neg (by simp [hk])] at h
    cases h

end SceneGraph

namespace Storyboard

theorem sinv_add_scene (sb : Storyboard) (scene : Scene) (h : SInv sb) :
    SInv (sb.add_scene scene) := by
  constructor
  · intro id hc
    rw [show (sb.add_scene scene).scene_bank =
      bankInsert sb.scene_bank scene.id scene from rfl,
      bankContains_bankInsert] at hc
    show containsKey (addKey sb.scene_graph.edges scene.id) id = true
    rcases Bool.or_eq_true_iff.mp hc with hid | hid
    · have : id = scene.id := by simpa using hid
      rw [this]
      exact containsKey_addKey_self scene.id _
    · exact containsKey_addKey_of scene.id id _ (h.1 id hid)
  · intro id sc hl
    rw [show (sb.add_scene scene).scene_bank =
      bankInsert sb.scene_bank scene.id scene from rfl] at hl
    by_cases hid : id = scene.id
    · rw [hid, bankLookup_bankInsert_self] at hl
      rw [← Option.some.inj hl, hid]
    · rw [bankLookup_bankInsert_ne _ _ _ _ hid] at hl
      exact h.2 id sc hl

theorem sinv_move_scene (sb : Storyboard) (scene from_ dest : SceneId) (now : Nat)
    (h : SInv sb) : SInv (sb.move_scene scene from_ dest now).1 := by
  unfold move_scene
  split
  · rename_i g e heq
    constructor
    · intro id hc
      have hk := SceneGraph.move_scene_preserves_keys sb.scene_graph scene from_
        dest id
      rw [heq] at hk
      exact hk.trans (h.1 id hc)
    · exact h.2
  · rename_i g u heq
    apply sinv_apply_update
    constructor
    · intro id hc
      have hk := SceneGraph.move_scene_preserves_keys sb.scene_graph scene from_
        dest id
      rw [heq] at hk
      exact hk.trans (h.1 id hc)
    · exact h.2

theorem sinv_delete_scene (sb : Storyboard) (id : SceneId) (now : Nat)
    (h : SInv sb) : SInv (sb.delete_scene id now).1 := by
  unfold delete_scene
  split
  · exact h
  · rename_i sc hb
    have hscid : sc.id = id := h.2 id sc hb
    dsimp only
    split
    · rename_i g e heq
      have hg : g = sb.scene_graph := by
        have h1 := SceneGraph.delete_scene_error_state sb.scene_graph sc.id e
          (by rw [heq])
        rw [heq] at h1
        exact h1
      subst hg
      constructor
      · intro x hc
        rw [show ({ sb with scene_bank := bankRemove sb.scene_bank id } :
            Storyboard).scene_bank = bankRemove sb.scene_bank id from rfl,
          bankContains_bankRemove] at hc
        obtain ⟨hcx, _⟩ := Bool.and_eq_true_iff.mp hc
        exact h.1 x hcx
      · intro x sc' hl
        rw [show ({ sb with scene_bank := bankRemove sb.scene_bank id } :
            Storyboard).scene_bank = bankRemove sb.scene_bank id from rfl,
          bankLookup_bankRemove] at hl
        by_cases hx : x = id
        · rw [if_pos hx] at hl; cases hl
        · rw [if_neg hx] at hl
          exact h.2 x sc' hl
    · rename_i g u heq
      apply sinv_apply_update
      cases hk : containsKey sb.scene_graph.edges sc.id with
      | false =>
        have : (sb.scene_graph.delete_scene sc.id) =
            (sb.scene_graph, .error (.SceneNotInGraph sc.id)) := by
          unfold SceneGraph.delete_scene
          rw [if_pos hk]
        rw [this] at heq
        exact absurd (congrArg Prod.snd heq) (by simp)
      | true =>
        have hdel : (sb.scene_graph.delete_scene sc.id) =
            (⟨purgeKey sb.scene_graph.edges sc.id,
              sb.scene_graph.roots.erase sc.id⟩, .ok (.SceneDeleted sc.id)) := by
          unfold SceneGraph.delete_scene
          rw [if_neg (by simp [hk])]
        have hg : g = ⟨purgeKey sb.scene_graph.edges sc.id,
            sb.scene_graph.roots.erase sc.id⟩ := by
          rw [hdel] at heq
          exact (Prod.mk.inj heq.symm).1
        subst hg
        constructor
        · intro x hc
          rw [show ({ sb with scene_bank := bankRemove sb.scene_bank id } :
              Storyboard).scene_bank = bankRemove sb.scene_bank id from rfl,
            bankContains_bankRemove] at hc
          obtain ⟨hcx, hxne⟩ := Bool.and_eq_true_iff.mp hc
          show containsKey (purgeKey sb.scene_graph.edges sc.id) x = true
          rw [SceneGraph.containsKey_purgeKey, h.1 x hcx, hscid]
          simpa using hxne
        · intro x sc' hl
          rw [show ({ sb with scene_bank := bankRemove sb.scene_bank id } :
              Storyboard).scene_bank = bankRemove sb.scene_bank id from rfl,
            bankLookup_bankRemove] at hl
          by_cases hx : x = id
          · rw [if_pos hx] at hl; cases hl
          · rw [if_neg hx] at hl
            exact h.2 x sc' hl

theorem sinv_set_scene_as_root (sb : Storyboard) (id : SceneId) (h : SInv sb) :
    SInv (sb.set_scene_as_root id) := by
  constructor
  · intro x hc
    show containsKey (addKey sb.scene_graph.edges id) x = true
    exact containsKey_addKey_of id x _ (h.1 x hc)
  · exact h.2

theorem sinv_link_scenes (sb : Storyboard) (from_ to_ : SceneId) (now : Nat)
    (h : SInv sb) : SInv (sb.link_scenes from_ to_ now).1 := by
  unfold link_scenes
  split
  · exact h
  · split
    · exact h
    · apply sinv_apply_update
      constructor
      · intro id hc
        exact SceneGraph.add_edge_keys_mono sb.scene_graph from_ to_ id
          (h.1 id hc)
      · exact h.2

theorem sinv_unlink_scenes (sb : Storyboard) (from_ to_ : SceneId) (now : Nat)
    (h : SInv sb) : SInv (sb.unlink_scenes from_ to_ now).1 := by
  unfold unlink_scenes
  split
  · exact h
  · split
    · exact h
    · split
      · rename_i g e heq
        constructor
        · intro id hc
          have hk := SceneGraph.delete_edge_preserves_keys sb.scene_graph from_
            to_ id
          rw [heq] at hk
          exact hk.trans (h.1 id hc)
        · exact h.2
      · rename_i g u heq
        apply sinv_apply_update
        constructor
        · intro id hc
          have hk := SceneGraph.delete_edge_preserves_keys sb.scene_graph from_
            to_ id
          rw [heq] at hk
          exact hk.trans (h.1 id hc)
        · exact h.2

end Storyboard

/-- The storyboards reachable from `Storyboard::default` by the public
operations of `storyboard.rs`. -/
inductive ReachableStoryboard : Storyboard → Prop where
  | default (now : Nat) : ReachableStoryboard (Storyboard.default now)
  | update_title (sb : Storyboard) (t : String) :
      ReachableStoryboard sb → ReachableStoryboard (sb.update_title t)
  | clear_title (sb : Storyboard) :
      ReachableStoryboard sb → ReachableStoryboard sb.clear_title
  | update_template (sb : Storyboard) (t : StoryTemplate) :
      ReachableStoryboard sb → ReachableStoryboard (sb.update_template t)
  | clear_template (sb : Storyboard) :
      ReachableStoryboard sb → ReachableStoryboard sb.clear_template
  | add_author (sb : Storyboard) (a : Nat) :
      ReachableStoryboard sb → ReachableStoryboard (sb.add_author a)
  | remove_author (sb : Storyboard) (a : Nat) :
      ReachableStoryboard sb → ReachableStoryboard (sb.remove_author a)
  | add_character (sb : Storyboard) (c : Nat) :
      ReachableStoryboard sb → ReachableStoryboard (sb.add_character c)
  | add_scene (sb : Storyboard) (scene : Scene) :
      ReachableStoryboard sb → ReachableStoryboard (sb.add_scene scene)
  | move_scene (sb : Storyboard) (scene from_ dest : SceneId) (now : Nat) :
      ReachableStoryboard sb →
      ReachableStoryboard (sb.move_scene scene from_ dest now).1
  | delete_scene (sb : Storyboard) (id : SceneId) (now : Nat) :
      ReachableStoryboard sb → ReachableStoryboard (sb.delete_scene id now).1
  | set_scene_as_root (sb : Storyboard) (id : SceneId) :
      ReachableStoryboard sb → ReachableStoryboard (sb.set_scene_as_root id)
  | link_scenes (sb : Storyboard) (from_ to_ : SceneId) (now : Nat) :
      ReachableStoryboard sb → ReachableStoryboard (sb.link_scenes from_ to_ now).1
  | unlink_scenes (sb : Storyboard) (from_ to_ : SceneId) (now : Nat) :
      ReachableStoryboard sb →
      ReachableStoryboard (sb.unlink_scenes from_ to_ now).1

/-- Every reachable storyboard satisfies the strengthened C10 invariant. -/
theorem sinv_of_reachable (sb : Storyboard) (h : ReachableStoryboard sb) :
    Storyboard.SInv sb := by
  induction h with
  | default now =>
    constructor
    · intro id hc
      cases hc
    · intro id sc hl
      cases hl
  | update_title sb t _ ih => exact ih
  | clear_title sb _ ih => exact ih
  | update_template sb t _ ih => exact ih
  | clear_template sb _ ih => exact ih
  | add_author sb a _ ih => exact ih
  | remove_author sb a _ ih => exact ih
  | add_character sb c _ ih => exact ih
  | add_scene sb scene _ ih => exact Storyboard.sinv_add_scene sb scene ih
  | move_scene sb scene from_ dest now _ ih =>
    exact Storyboard.sinv_move_scene sb scene from_ dest now ih
  | delete_scene sb id now _ ih => exact Storyboard.sinv_delete_scene sb id now ih
  | set_scene_as_root sb id _ ih => exact Storyboard.sinv_set_scene_as_root sb id ih
  | link_scenes sb from_ to_ now _ ih =>
    exact Storyboard.sinv_link_scenes sb from_ to_ now ih
  | unlink_scenes sb from_ to_ now _ ih =>
    exact Storyboard.sinv_unlink_scenes sb from_ to_ now ih

/-- C10.  In every storyboard reachable from `Storyboard::default` by public
operations, every key of `scene_bank` is a member (key of `edges`) of the
owned scene graph. -/
theorem C10_bank_subset_graph (sb : Storyboard) (h : ReachableStoryboard sb) :
    ∀ id, bankContains sb.scene_bank id = true →
      containsKey sb.scene_graph.edges id = true :=
  (sinv_of_reachable sb h).1

/-- Witness for C10 on the reachable storyboard obtained by adding scene 1:
the bank holds 1 and the graph knows it. -/
theorem C10_bank_subset_graph_witness :
    bankContains ((Storyboard.default 0).add_scene
      ⟨1, Metadata.new 0⟩).scene_bank 1 = true
    ∧ containsKey ((Storyboard.default 0).add_scene
        ⟨1, Metadata.new 0⟩).scene_graph.edges 1 = true :=
  ⟨by decide,
    C10_bank_subset_graph ((Storyboard.default 0).add_scene ⟨1, Metadata.new 0⟩)
      (ReachableStoryboard.add_scene _ _ (ReachableStoryboard.default 0)) 1
      (by decide)⟩
